import Mathlib

/-!
Verification of the watermelon NATS client library: a shallow embedding of the
wire codec (`watermelon-proto`), the validators, the header multimap, the
Happy-Eyeballs candidate selection (`watermelon-net`) and the handler reactor
(`watermelon`), together with theorems settling the specification claims.

Modelling conventions: bytes are natural numbers (kept below 256 by the
constructions), byte buffers (`Bytes`/`BytesMut`) are lists of naturals, and
Rust `str`/`ByteString` contents are lists of unicode scalar values
(`List Char`).  Fallible Rust code is modelled with `Except`/`Option`; the one
reachable panic in the decoder is modelled by an explicit `panik` outcome.
Machine integers are naturals; overflow checks of the source (`checked_mul`,
`checked_add`, `checked_sub`, saturating ops) are modelled explicitly.
-/

namespace Watermelon

/-- Byte buffers (Rust `Bytes` / `BytesMut`) as lists of naturals. -/
abbrev ByteBuf := List Nat

/-- Rust `str` contents as a list of unicode scalar values. -/
abbrev Str := List Char

/-- UTF-8 encoding of one unicode scalar value, as produced by Rust strings. -/
def utf8EncodeChar (c : Char) : ByteBuf :=
  let n := c.toNat
  if n < 0x80 then [n]
  else if n < 0x800 then [0xC0 + n / 64, 0x80 + n % 64]
  else if n < 0x10000 then [0xE0 + n / 4096, 0x80 + n / 64 % 64, 0x80 + n % 64]
  else [0xF0 + n / 262144, 0x80 + n / 4096 % 64, 0x80 + n / 64 % 64, 0x80 + n % 64]

/-- The UTF-8 bytes backing a Rust `str` (what `.as_bytes()` yields). -/
def strBytes (s : Str) : ByteBuf := (s.map utf8EncodeChar).flatten

/-- Rust `str::len`: the length in bytes of the UTF-8 encoding. -/
def byteLen (s : Str) : Nat := (strBytes s).length

/-- Bytes of an ASCII Lean string literal (used to embed wire keywords). -/
def ascii (s : String) : ByteBuf := s.toList.map Char.toNat

/-- Rust `char::is_whitespace`: the unicode `White_Space` property. -/
def isRustWhitespace (c : Char) : Bool :=
  let n := c.toNat
  (9 ≤ n && n ≤ 13) || n == 32 || n == 0x85 || n == 0xA0 || n == 0x1680 ||
    (0x2000 ≤ n && n ≤ 0x200A) || n == 0x2028 || n == 0x2029 || n == 0x202F ||
    n == 0x205F || n == 0x3000

/-- Substring search (Rust `str::contains` on a literal pattern). -/
def containsSeq [DecidableEq α] (pat : List α) : List α → Bool
  | [] => pat.isEmpty
  | a :: t => pat.isPrefixOf (a :: t) || containsSeq pat t

/-- Rust `str::split('.')`: always yields one more token than there are dots. -/
def splitOnDot : Str → List Str
  | [] => [[]]
  | c :: rest =>
    if c = '.' then [] :: splitOnDot rest
    else
      match splitOnDot rest with
      | [] => [[c]]
      | t :: ts => (c :: t) :: ts

/-- Error type of `validate_subject` (file `subject.rs`). -/
inductive SubjectValidateError
  | Empty
  | TooLong
  | IllegalCharacter
  | BrokenToken
  | BrokenWildcard
deriving DecidableEq, Repr

/-- The token loop of `validate_subject`: `while let Some(token) = tokens.next()`
with a peekable iterator; the second argument of each step is the remaining
tokens, so `tokens.peek().is_some()` is `rest ≠ []`. -/
def validateTokens : List Str → Except SubjectValidateError Unit
  | [] => .ok ()
  | t :: rest =>
    if t.isEmpty || containsSeq ['.', '.'] t then .error .BrokenToken
    else if decide (1 < byteLen t) && (t.contains '*' || t.contains '>') then
      .error .BrokenWildcard
    else if t = ['>'] && rest ≠ [] then .error .BrokenWildcard
    else validateTokens rest

/-- Embedding of `validate_subject` (file `subject.rs`): the checks run in
source order (empty, byte length over 256, unicode whitespace, token loop). -/
def validate_subject (subject : Str) : Except SubjectValidateError Unit :=
  if subject.isEmpty then .error .Empty
  else if 256 < byteLen subject then .error .TooLong
  else if subject.any isRustWhitespace then .error .IllegalCharacter
  else validateTokens (splitOnDot subject)

/-- Token rules written from the words of the specification claim: every
dot-separated token is non-empty, a token containing a wildcard is exactly
that one wildcard character, and the tail wildcard occurs only in the last
token. -/
def subjectTokensOk (s : Str) : Prop :=
  (∀ t ∈ splitOnDot s, t ≠ []) ∧
    (∀ t ∈ splitOnDot s, ('*' ∈ t ∨ '>' ∈ t) → (t = ['*'] ∨ t = ['>'])) ∧
    (∀ t ∈ (splitOnDot s).dropLast, '>' ∉ t)

/-- Acceptance predicate written from the words of the specification claim:
non-empty, length at most 256, no whitespace character, and the token
rules. -/
def subjectSpec (s : Str) : Prop :=
  s ≠ [] ∧ byteLen s ≤ 256 ∧ (∀ c ∈ s, ¬ isRustWhitespace c) ∧
    subjectTokensOk s

/-- Rust `memchr::memmem::find`: index of the first occurrence of `pat`. -/
def findSub (pat : ByteBuf) : ByteBuf → Option Nat
  | [] => if pat.isPrefixOf ([] : ByteBuf) then some 0 else none
  | b :: rest =>
    if pat.isPrefixOf (b :: rest) then some 0
    else (findSub pat rest).map (· + 1)

/-- The `CRLF` byte pair. -/
def crlf : ByteBuf := [13, 10]

/-- Error type of the unsigned-integer parser (file `util/uint.rs`). -/
inductive ParseUintError
  | InvalidByte (b : Nat)
  | Overflow
deriving DecidableEq, Repr

/-- Accumulator loop of `parse_unsigned!`: `checked_mul`/`checked_add`
against the width's maximum (`max`). -/
def parseUintGo (max : Nat) : ByteBuf → Nat → Except ParseUintError Nat
  | [], val => .ok val
  | b :: rest, val =>
    if ¬ (48 ≤ b ∧ b ≤ 57) then .error (.InvalidByte b)
    else if max < val * 10 then .error .Overflow
    else if max < val * 10 + (b - 48) then .error .Overflow
    else parseUintGo max rest (val * 10 + (b - 48))

/-- Embedding of `parse_u64` (file `util/uint.rs`). -/
def parse_u64 (buf : ByteBuf) : Except ParseUintError Nat :=
  parseUintGo (2 ^ 64 - 1) buf 0

/-- Embedding of `parse_usize` (64-bit targets). -/
def parse_usize (buf : ByteBuf) : Except ParseUintError Nat :=
  parseUintGo (2 ^ 64 - 1) buf 0

/-- Embedding of `parse_u16` (file `util/uint.rs`). -/
def parse_u16 (buf : ByteBuf) : Except ParseUintError Nat :=
  parseUintGo (2 ^ 16 - 1) buf 0

/-- Embedding of `StatusCode::from_ascii_bytes` (file `status_code.rs`): a
three-byte numeric field whose value lies in `100..1000`. -/
def statusCodeFromAsciiBytes (buf : ByteBuf) : Except Unit Nat :=
  if buf.length ≠ 3 then .error ()
  else
    match parse_u16 buf with
    | .error _ => .error ()
    | .ok n => if 100 ≤ n ∧ n < 1000 then .ok n else .error ()

/-- One step of `split_spaces` (file `util/split_spaces.rs`): the source fills
an array of six chunks, splitting on space or tab and then skipping any run of
spaces and tabs; input beyond the sixth chunk is dropped. -/
def splitSpacesGo : Nat → ByteBuf → List ByteBuf
  | 0, _ => []
  | fuel + 1, bytes =>
    match bytes.findIdx? (fun b => b == 32 || b == 9) with
    | none => if bytes.isEmpty then [] else [bytes]
    | some i =>
      bytes.take i ::
        splitSpacesGo fuel ((bytes.drop i).dropWhile (fun b => b = 32 ∨ b = 9))

/-- Embedding of `split_spaces` (file `util/split_spaces.rs`). -/
def splitSpaces (bytes : ByteBuf) : List ByteBuf := splitSpacesGo 6 bytes

/-- One step of `lines_iter` (file `util/lines_iter.rs`): split on `CRLF`; a
trailing chunk without `CRLF` is yielded as-is.  The fuel is only a structural
bound; `linesIter` supplies more fuel than the byte count. -/
def linesIterGo : Nat → ByteBuf → List ByteBuf
  | 0, _ => []
  | fuel + 1, l =>
    if l.isEmpty then []
    else
      match findSub crlf l with
      | some i => l.take i :: linesIterGo fuel (l.drop (i + 2))
      | none => [l]

/-- Embedding of `lines_iter` (file `util/lines_iter.rs`). -/
def linesIter (l : ByteBuf) : List ByteBuf := linesIterGo (l.length + 1) l

/-- Whether `b` is a UTF-8 continuation byte. -/
def isCont (b : Nat) : Bool := 0x80 ≤ b && b ≤ 0xBF

/-- UTF-8 validation and decoding, with the same accepted set as Rust's
`str::from_utf8` (rejecting overlong forms and surrogates).  The fuel is a
structural bound; `utf8Decode` supplies more fuel than the byte count. -/
def utf8DecodeGo : Nat → ByteBuf → Option Str
  | 0, _ => none
  | _ + 1, [] => some []
  | fuel + 1, b :: rest =>
    if b < 0x80 then (utf8DecodeGo fuel rest).map (Char.ofNat b :: ·)
    else if 0xC2 ≤ b ∧ b ≤ 0xDF then
      match rest with
      | b1 :: rest1 =>
        if isCont b1 then
          (utf8DecodeGo fuel rest1).map
            (Char.ofNat ((b - 0xC0) * 64 + (b1 - 0x80)) :: ·)
        else none
      | [] => none
    else if 0xE0 ≤ b ∧ b ≤ 0xEF then
      match rest with
      | b1 :: b2 :: rest2 =>
        if (if b = 0xE0 then 0xA0 ≤ b1 ∧ b1 ≤ 0xBF
            else if b = 0xED then 0x80 ≤ b1 ∧ b1 ≤ 0x9F
            else isCont b1) ∧ isCont b2 then
          (utf8DecodeGo fuel rest2).map
            (Char.ofNat ((b - 0xE0) * 4096 + (b1 - 0x80) * 64 + (b2 - 0x80)) :: ·)
        else none
      | _ => none
    else if 0xF0 ≤ b ∧ b ≤ 0xF4 then
      match rest with
      | b1 :: b2 :: b3 :: rest3 =>
        if (if b = 0xF0 then 0x90 ≤ b1 ∧ b1 ≤ 0xBF
            else if b = 0xF4 then 0x80 ≤ b1 ∧ b1 ≤ 0x8F
            else isCont b1) ∧ isCont b2 ∧ isCont b3 then
          (utf8DecodeGo fuel rest3).map
            (Char.ofNat
              ((b - 0xF0) * 262144 + (b1 - 0x80) * 4096 + (b2 - 0x80) * 64 +
                (b3 - 0x80)) :: ·)
        else none
      | _ => none
    else none

/-- Rust `ByteString::try_from(Bytes)`: UTF-8 validation (file `decoder/mod.rs`
uses it on subjects, header names and values and the error message). -/
def utf8Decode (l : ByteBuf) : Option Str := utf8DecodeGo (l.length + 1) l

/-- Error type of `validate_header_name` (file `headers/name.rs`). -/
inductive HeaderNameValidateError
  | Empty
  | TooLong
  | IllegalCharacter
deriving DecidableEq, Repr

/-- Embedding of `validate_header_name` (file `headers/name.rs`): non-empty,
at most 64 bytes, and no unicode whitespace or colon. -/
def validate_header_name (headerName : Str) : Except HeaderNameValidateError Unit :=
  if headerName.isEmpty then .error .Empty
  else if 64 < byteLen headerName then .error .TooLong
  else if headerName.any (fun c => isRustWhitespace c || c == ':') then
    .error .IllegalCharacter
  else .ok ()

/-- Error type of `validate_header_value` (file `headers/value.rs`). -/
inductive HeaderValueValidateError
  | Empty
  | TooLong
  | IllegalCharacter
deriving DecidableEq, Repr

/-- Embedding of `validate_header_value` (file `headers/value.rs`): non-empty,
at most 1024 bytes, and no unicode whitespace. -/
def validate_header_value (headerValue : Str) : Except HeaderValueValidateError Unit :=
  if headerValue.isEmpty then .error .Empty
  else if 1024 < byteLen headerValue then .error .TooLong
  else if headerValue.any isRustWhitespace then .error .IllegalCharacter
  else .ok ()

/-- Lexicographic three-way comparison of byte lists (the order backing the
`BTreeMap` keys). -/
def listCmpNat : List Nat → List Nat → Ordering
  | [], [] => .eq
  | [], _ :: _ => .lt
  | _ :: _, [] => .gt
  | a :: as, b :: bs =>
    if a < b then .lt else if b < a then .gt else listCmpNat as bs

/-- Case folding used by `UniCase` on the ASCII header names NATS deals with:
`HeaderName` equality and order are case-insensitive (file `headers/name.rs`). -/
def foldKey (s : Str) : List Nat := s.map (fun c => c.toLower.toNat)

/-- Three-way comparison of header names: `Ord for UniCase<ByteString>`. -/
def cmpKey (a b : Str) : Ordering := listCmpNat (foldKey a) (foldKey b)

/-- Embedding of `HeaderMap` (file `headers/map.rs`): the `BTreeMap` is a
sorted association list from a name to its `OneOrMany` values (flattened to a
non-empty list), and `len` is the separately tracked total value count. -/
structure HeaderMap where
  entries : List (Str × List Str)
  len : Nat
deriving DecidableEq, Repr

/-- Embedding of `HeaderMap::new`. -/
def HeaderMap.new : HeaderMap := { entries := [], len := 0 }

/-- Lookup of the value list stored under a name (empty when absent). -/
def findValues : List (Str × List Str) → Str → List Str
  | [], _ => []
  | (k', vs) :: rest, k => if cmpKey k k' = .eq then vs else findValues rest k

/-- `BTreeMap::insert` on the sorted entry list: replaces the value of an
equal key (keeping the stored key) or inserts at the ordered position. -/
def entriesInsert : List (Str × List Str) → Str → List Str → List (Str × List Str)
  | [], k, vs => [(k, vs)]
  | (k', vs') :: rest, k, vs =>
    match cmpKey k k' with
    | .lt => (k, vs) :: (k', vs') :: rest
    | .eq => (k', vs) :: rest
    | .gt => (k', vs') :: entriesInsert rest k vs

/-- `BTreeMap::entry` used by `HeaderMap::append`: push onto an occupied
entry's value list, or insert a fresh single-value entry in order. -/
def entriesAppend : List (Str × List Str) → Str → Str → List (Str × List Str)
  | [], k, v => [(k, [v])]
  | (k', vs') :: rest, k, v =>
    match cmpKey k k' with
    | .lt => (k, [v]) :: (k', vs') :: rest
    | .eq => (k', vs' ++ [v]) :: rest
    | .gt => (k', vs') :: entriesAppend rest k v

/-- `BTreeMap::remove` on the sorted entry list. -/
def entriesRemove : List (Str × List Str) → Str → List (Str × List Str)
  | [], _ => []
  | (k', vs') :: rest, k =>
    if cmpKey k k' = .eq then rest else (k', vs') :: entriesRemove rest k

/-- Embedding of `HeaderMap::insert` (file `headers/map.rs`): the previous
values of the name are dropped from `len`, then one is added. -/
def HeaderMap.insert (m : HeaderMap) (name value : Str) : HeaderMap :=
  { entries := entriesInsert m.entries name [value],
    len := m.len - (findValues m.entries name).length + 1 }

/-- Embedding of `HeaderMap::append` (file `headers/map.rs`). -/
def HeaderMap.append (m : HeaderMap) (name value : Str) : HeaderMap :=
  { entries := entriesAppend m.entries name value, len := m.len + 1 }

/-- Embedding of `HeaderMap::remove` (file `headers/map.rs`). -/
def HeaderMap.remove (m : HeaderMap) (name : Str) : HeaderMap :=
  { entries := entriesRemove m.entries name,
    len := m.len - (findValues m.entries name).length }

/-- Embedding of `HeaderMap::clear` (file `headers/map.rs`). -/
def HeaderMap.clear (_m : HeaderMap) : HeaderMap := { entries := [], len := 0 }

/-- Embedding of `HeaderMap::keys_len`. -/
def HeaderMap.keysLen (m : HeaderMap) : Nat := m.entries.length

/-- Embedding of `HeaderMap::is_empty` (`self.headers.is_empty()`). -/
def HeaderMap.isEmpty (m : HeaderMap) : Bool := m.entries.isEmpty

/-- Embedding of `Extend for HeaderMap` / `FromIterator` (both append every
pair in iteration order). -/
def HeaderMap.extend (m : HeaderMap) (pairs : List (Str × Str)) : HeaderMap :=
  pairs.foldl (fun acc p => acc.append p.1 p.2) m

/-- Embedding of `ServerError` (file `server_error.rs`). -/
inductive ServerError
  | InvalidSubject
  | PublishPermissionViolation
  | SubscribePermissionViolation
  | UnknownProtocolOperation
  | ConnectionAttemptedToWrongPort
  | AuthorizationViolation
  | AuthorizationTimeout
  | InvalidClientProtocol
  | MaximumControlLineExceeded
  | ParseError
  | TlsRequired
  | StaleConnection
  | MaximumConnectionsExceeded
  | SlowConsumer
  | MaximumPayloadViolation
  | Other (raw_message : Str)
deriving DecidableEq, Repr

/-- Embedding of `ServerError::is_fatal` (file `server_error.rs`): permission
and subject errors are non-fatal, the known rest fatal, `Other` unknown. -/
def ServerError.is_fatal : ServerError → Option Bool
  | .InvalidSubject | .PublishPermissionViolation | .SubscribePermissionViolation =>
    some false
  | .Other _ => none
  | _ => some true

/-- Rust `u8::to_ascii_lowercase`. -/
def toLowerByte (b : Nat) : Nat := if 65 ≤ b ∧ b ≤ 90 then b + 32 else b

/-- Rust `eq_ignore_ascii_case` on byte slices. -/
def eqIgnoreAsciiCase (a b : ByteBuf) : Bool :=
  a.map toLowerByte == b.map toLowerByte

/-- Rust `str::trim` (unicode whitespace from both ends). -/
def trimStr (s : Str) : Str :=
  ((s.dropWhile isRustWhitespace).reverse.dropWhile isRustWhitespace).reverse

/-- Byte-prefix test of `ServerError::parse`: `m.len() > PAT.len()` together
with a case-insensitive comparison of the first `PAT.len()` bytes. -/
def errPrefixMatches (m : Str) (pat : String) : Bool :=
  (ascii pat).length < byteLen m &&
    eqIgnoreAsciiCase ((strBytes m).take (ascii pat).length) (ascii pat)

/-- Full-string case-insensitive match of `ServerError::parse`. -/
def errMatches (m : Str) (pat : String) : Bool :=
  eqIgnoreAsciiCase (strBytes m) (ascii pat)

/-- Embedding of `ServerError::parse` (file `server_error.rs`): trim, then
ASCII case-insensitive matching against the closed set of known messages. -/
def ServerError.parse (raw_message : Str) : ServerError :=
  let m := trimStr raw_message
  if errMatches m "Invalid Subject" then .InvalidSubject
  else if errPrefixMatches m "Permissions Violation for Publish" then
    .PublishPermissionViolation
  else if errPrefixMatches m "Permissions Violation for Subscription" then
    .SubscribePermissionViolation
  else if errMatches m "Unknown Protocol Operation" then .UnknownProtocolOperation
  else if errMatches m "Attempted To Connect To Route Port" then
    .ConnectionAttemptedToWrongPort
  else if errMatches m "Authorization Violation" then .AuthorizationViolation
  else if errMatches m "Authorization Timeout" then .AuthorizationTimeout
  else if errMatches m "Invalid Client Protocol" then .InvalidClientProtocol
  else if errMatches m "Maximum Control Line Exceeded" then
    .MaximumControlLineExceeded
  else if errMatches m "Parser Error" then .ParseError
  else if errMatches m "Secure Connection - TLS Required" then .TlsRequired
  else if errMatches m "Stale Connection" then .StaleConnection
  else if errMatches m "Maximum Connections Exceeded" then
    .MaximumConnectionsExceeded
  else if errMatches m "Slow Consumer" then .SlowConsumer
  else if errMatches m "Maximum Payload Violation" then .MaximumPayloadViolation
  else .Other raw_message

/-- Abstraction of `ServerInfo` (file `server_info.rs`): only the lame-duck
flag is inspected by the embedded code; the rest is an opaque tag. -/
structure ServerInfoM where
  lame_duck_mode : Bool
  data : Nat
deriving DecidableEq, Repr

/-- Embedding of `MessageBase` (file `message.rs`). -/
structure MessageBase where
  subject : Str
  reply_subject : Option Str
  headers : HeaderMap
  payload : ByteBuf
deriving DecidableEq, Repr

/-- Embedding of `ServerMessage` (file `message.rs`); the subscription id is
the `u64` inside `SubscriptionId`. -/
structure ServerMessage where
  status_code : Option Nat
  subscription_id : Nat
  base : MessageBase
deriving DecidableEq, Repr

/-- Embedding of `ServerOp` (file `proto/server.rs`). -/
inductive ServerOp
  | Info (info : ServerInfoM)
  | Message (message : ServerMessage)
  | Success
  | Error (error : ServerError)
  | Ping
  | Pong
deriving DecidableEq, Repr

/-- Embedding of `ClientOp` (file `proto/client.rs`); `Connect` options are an
opaque tag serialized through an oracle (serde_json is an external crate). -/
inductive ClientOp
  | Connect (connect : Nat)
  | Publish (message : MessageBase)
  | Subscribe (id : Nat) (subject : Str) (queue_group : Option Str)
  | Unsubscribe (id : Nat) (max_messages : Option Nat)
  | Ping
  | Pong
deriving DecidableEq, Repr

/-- Embedding of `DecoderStatus` (file `proto/decoder/mod.rs`). -/
inductive DecoderStatus
  | ControlLine (last_bytes_read : Nat)
  | Headers (subscription_id : Nat) (subject : Str) (reply_subject : Option Str)
      (header_len : Nat) (payload_len : Nat)
  | Payload (subscription_id : Nat) (subject : Str) (reply_subject : Option Str)
      (status_code : Option Nat) (headers : HeaderMap) (payload_len : Nat)
  | Poisoned
deriving DecidableEq, Repr

/-- Embedding of `DecoderError` (file `proto/decoder/mod.rs`). -/
inductive DecoderError
  | HeadTooLong (len : Nat)
  | InvalidCommand
  | InvalidMsgArgsCount
  | InvalidHmsgArgsCount
  | SubjectInvalidUtf8
  | ReplySubjectInvalidUtf8
  | SubscriptionId (e : ParseUintError)
  | InvalidHeaderLength (e : ParseUintError)
  | InvalidPayloadLength (e : ParseUintError)
  | InvalidTotalLength
  | MissingHead
  | InvalidHead
  | InvalidHeaderLine
  | StatusCode
  | HeaderNameInvalidUtf8
  | HeaderName (e : HeaderNameValidateError)
  | HeaderValueInvalidUtf8
  | HeaderValue (e : HeaderValueValidateError)
  | InvalidInfo
  | InvalidErrorMessage
  | Poisoned
deriving DecidableEq, Repr

/-- Result of one `decode` invocation: a decoded op or no-progress (`ok`), a
decoder error (`err`), or a Rust panic (`panik`).  The source's signature
admits only the first two; `panik` marks control flow that unwinds. -/
inductive DecodeRes
  | ok (op : Option ServerOp)
  | err (e : DecoderError)
  | panik
deriving DecidableEq, Repr

/-- State after one `decode` invocation: the result together with the decoder
status and the remaining read buffer (both mutated in place in the source). -/
structure DecodeOut where
  result : DecodeRes
  status : DecoderStatus
  buf : ByteBuf
deriving DecidableEq, Repr

/-- Embedding of `decode_msg` (file `proto/decoder/mod.rs`): splits the
control line after `MSG ` into 3 or 4 chunks and builds the `Payload` state.
`Subject::from_dangerous_value` skips validation (release build). -/
def decode_msg (controlLine : ByteBuf) : Except DecoderError DecoderStatus := do
  let chunks := splitSpaces (controlLine.drop (ascii "MSG ").length)
  let (subject, subscription_id, reply_subject, payload_len) ←
    match chunks with
    | [subject, sid, reply, plen] => .ok (subject, sid, some reply, plen)
    | [subject, sid, plen] => .ok (subject, sid, none, plen)
    | _ => .error .InvalidMsgArgsCount
  let subject ←
    match utf8Decode subject with
    | some s => .ok s
    | none => .error .SubjectInvalidUtf8
  let subscription_id ←
    match parse_u64 subscription_id with
    | .ok n => .ok n
    | .error e => .error (.SubscriptionId e)
  let reply_subject ←
    match reply_subject with
    | none => .ok none
    | some r =>
      match utf8Decode r with
      | some s => .ok (some s)
      | none => .error .SubjectInvalidUtf8
  let payload_len ←
    match parse_usize payload_len with
    | .ok n => .ok n
    | .error e => .error (.InvalidPayloadLength e)
  .ok (.Payload subscription_id subject reply_subject none HeaderMap.new payload_len)

/-- Embedding of `decode_hmsg` (file `proto/decoder/mod.rs`): 4 or 5 chunks;
the payload length is `total_len - header_len`, `checked_sub`. -/
def decode_hmsg (controlLine : ByteBuf) : Except DecoderError DecoderStatus := do
  let chunks := splitSpaces (controlLine.drop (ascii "HMSG ").length)
  let (subject, subscription_id, reply_subject, header_len, total_len) ←
    match chunks with
    | [subject, sid, reply, hlen, tlen] => .ok (subject, sid, some reply, hlen, tlen)
    | [subject, sid, hlen, tlen] => .ok (subject, sid, none, hlen, tlen)
    | _ => .error .InvalidHmsgArgsCount
  let subject ←
    match utf8Decode subject with
    | some s => .ok s
    | none => .error .SubjectInvalidUtf8
  let subscription_id ←
    match parse_u64 subscription_id with
    | .ok n => .ok n
    | .error e => .error (.SubscriptionId e)
  let reply_subject ←
    match reply_subject with
    | none => .ok none
    | some r =>
      match utf8Decode r with
      | some s => .ok (some s)
      | none => .error .SubjectInvalidUtf8
  let header_len ←
    match parse_usize header_len with
    | .ok n => .ok n
    | .error e => .error (.InvalidHeaderLength e)
  let total_len ←
    match parse_usize total_len with
    | .ok n => .ok n
    | .error e => .error (.InvalidPayloadLength e)
  let payload_len ←
    if header_len ≤ total_len then .ok (total_len - header_len)
    else .error .InvalidTotalLength
  .ok (.Headers subscription_id subject reply_subject header_len payload_len)

/-- Outcome of parsing one `name:value` header line. -/
inductive HLineRes
  | ok (name : Str) (value : Str)
  | err (e : DecoderError)
  | panik
deriving DecidableEq, Repr

/-- One header line of `decode_headers` (file `proto/decoder/mod.rs`): find
the colon, split the name off, skip one optional ASCII whitespace after the
colon, then validate UTF-8 and the constructor rules of name and value.  The
whitespace test indexes `line[0]` after advancing past the colon: when
nothing follows the colon this indexes an empty buffer, a panic. -/
def parseHeaderLine (line : ByteBuf) : HLineRes :=
  match line.findIdx? (fun b => b == 58) with
  | none => .err .InvalidHeaderLine
  | some i =>
    let name := line.take i
    match line.drop (i + 1) with
    | [] => .panik
    | b :: bs =>
      let value := if b = 32 ∨ b = 9 ∨ b = 10 ∨ b = 12 ∨ b = 13 then bs else b :: bs
      match utf8Decode name with
      | none => .err .HeaderNameInvalidUtf8
      | some nameStr =>
        match validate_header_name nameStr with
        | .error e => .err (.HeaderName e)
        | .ok _ =>
          match utf8Decode value with
          | none => .err .HeaderValueInvalidUtf8
          | some valueStr =>
            match validate_header_value valueStr with
            | .error e => .err (.HeaderValue e)
            | .ok _ => .ok nameStr valueStr

/-- Outcome of collecting all header lines into a `HeaderMap`. -/
inductive HeadersParse
  | ok (headers : HeaderMap)
  | err (e : DecoderError)
  | panik
deriving DecidableEq, Repr

/-- The `lines.filter(non-empty).map(parse).collect` pipeline of
`decode_headers`: empty lines are skipped, the first failing line
short-circuits, and pairs are appended in order (`FromIterator`). -/
def collectHeaders : List ByteBuf → HeaderMap → HeadersParse
  | [], acc => .ok acc
  | line :: rest, acc =>
    if line.isEmpty then collectHeaders rest acc
    else
      match parseHeaderLine line with
      | .panik => .panik
      | .err e => .err e
      | .ok name value => collectHeaders rest (acc.append name value)

/-- Embedding of `decode_headers` (file `proto/decoder/mod.rs`).  On entry the
status is replaced by `Poisoned` and `header_len` bytes are split off; the
status is rebuilt as `Payload` only on success, so any error leaves the
decoder poisoned.  The head line must start with `NATS/1.0`; a remainder of
at least 4 bytes carries a status code at byte offsets `1..4`. -/
def decodeHeadersFn (subscription_id : Nat) (subject : Str)
    (reply_subject : Option Str) (header_len payload_len : Nat)
    (readBuf : ByteBuf) : DecodeRes × DecoderStatus × ByteBuf :=
  let header := readBuf.take header_len
  let rest := readBuf.drop header_len
  match linesIter header with
  | [] => (.err .MissingHead, .Poisoned, rest)
  | head :: lines =>
    if (ascii "NATS/1.0").isPrefixOf head then
      let headRest := head.drop (ascii "NATS/1.0").length
      let statusCodeRes : Except DecoderError (Option Nat) :=
        if 4 ≤ headRest.length then
          match statusCodeFromAsciiBytes ((headRest.drop 1).take 3) with
          | .ok n => .ok (some n)
          | .error _ => .error .StatusCode
        else .ok none
      match statusCodeRes with
      | .error e => (.err e, .Poisoned, rest)
      | .ok status_code =>
        match collectHeaders lines HeaderMap.new with
        | .panik => (.panik, .Poisoned, rest)
        | .err e => (.err e, .Poisoned, rest)
        | .ok headers =>
          (.ok none,
            .Payload subscription_id subject reply_subject status_code headers
              payload_len,
            rest)
    else (.err .InvalidHead, .Poisoned, rest)

/-- The `Payload` arm of `decode` (file `proto/decoder/mod.rs`): once
`payload_len + 2` bytes are available, split the payload off, discard the
trailing two bytes, reset to `ControlLine` and emit the message. -/
def decodePayload (subscription_id : Nat) (subject : Str)
    (reply_subject : Option Str) (status_code : Option Nat)
    (headers : HeaderMap) (payload_len : Nat) (readBuf : ByteBuf) : DecodeOut :=
  if readBuf.length < payload_len + 2 then
    { result := .ok none,
      status := .Payload subscription_id subject reply_subject status_code
        headers payload_len,
      buf := readBuf }
  else
    { result := .ok (some (.Message
        { status_code, subscription_id,
          base :=
            { subject, reply_subject, headers,
              payload := readBuf.take payload_len } })),
      status := .ControlLine 0,
      buf := readBuf.drop (payload_len + 2) }

/-- The `Headers` arm of `decode`: wait for `header_len` bytes, then run
`decode_headers` and continue the loop into the `Payload` arm. -/
def decodeHeadersArm (subscription_id : Nat) (subject : Str)
    (reply_subject : Option Str) (header_len payload_len : Nat)
    (readBuf : ByteBuf) : DecodeOut :=
  if readBuf.length < header_len then
    { result := .ok none,
      status := .Headers subscription_id subject reply_subject header_len
        payload_len,
      buf := readBuf }
  else
    match decodeHeadersFn subscription_id subject reply_subject header_len
        payload_len readBuf with
    | (.panik, st, rest) => { result := .panik, status := st, buf := rest }
    | (.err e, st, rest) => { result := .err e, status := st, buf := rest }
    | (_, .Payload sid subj reply sc hs plen, rest) =>
      decodePayload sid subj reply sc hs plen rest
    | (_, st, rest) => { result := .err .Poisoned, status := st, buf := rest }

/-- The `ControlLine` arm of `decode` (file `proto/decoder/mod.rs`), with the
`INFO` JSON deserializer as an oracle (`serde_json` is an external crate).
If no `CRLF` is present the invocation records the buffer length and reports
no-progress; the `HeadTooLong` test only runs in the final dispatch branch,
on the buffer remaining after the control line was split off. -/
def decodeControlLine (parseInfo : ByteBuf → Option ServerInfoM)
    (last_bytes_read : Nat) (readBuf : ByteBuf) : DecodeOut :=
  if last_bytes_read = readBuf.length then
    { result := .ok none, status := .ControlLine last_bytes_read, buf := readBuf }
  else
    match findSub crlf readBuf with
    | none =>
      { result := .ok none, status := .ControlLine readBuf.length, buf := readBuf }
    | some n =>
      let controlLine := readBuf.take n
      let rest := readBuf.drop (n + 2)
      if (ascii "+OK").isPrefixOf controlLine then
        { result := .ok (some .Success), status := .ControlLine last_bytes_read,
          buf := rest }
      else if (ascii "MSG ").isPrefixOf controlLine then
        match decode_msg controlLine with
        | .ok (.Payload sid subj reply sc hs plen) =>
          decodePayload sid subj reply sc hs plen rest
        | .ok st =>
          { result := .err .Poisoned, status := st, buf := rest }
        | .error e =>
          { result := .err e, status := .ControlLine last_bytes_read, buf := rest }
      else if (ascii "HMSG ").isPrefixOf controlLine then
        match decode_hmsg controlLine with
        | .ok (.Headers sid subj reply hlen plen) =>
          decodeHeadersArm sid subj reply hlen plen rest
        | .ok st =>
          { result := .err .Poisoned, status := st, buf := rest }
        | .error e =>
          { result := .err e, status := .ControlLine last_bytes_read, buf := rest }
      else if (ascii "PING").isPrefixOf controlLine then
        { result := .ok (some .Ping), status := .ControlLine last_bytes_read,
          buf := rest }
      else if (ascii "PONG").isPrefixOf controlLine then
        { result := .ok (some .Pong), status := .ControlLine last_bytes_read,
          buf := rest }
      else if (ascii "-ERR ").isPrefixOf controlLine then
        let body := controlLine.drop (ascii "-ERR ").length
        if (39 :: []).isPrefixOf body ∧ body.getLast? = some 39 then
          let inner := (body.drop 1).take (body.length - 1 - 1)
          match utf8Decode inner with
          | none =>
            { result := .err .InvalidErrorMessage,
              status := .ControlLine last_bytes_read, buf := rest }
          | some msg =>
            { result := .ok (some (.Error (ServerError.parse msg))),
              status := .ControlLine last_bytes_read, buf := rest }
        else
          { result := .err .InvalidErrorMessage,
            status := .ControlLine last_bytes_read, buf := rest }
      else if (ascii "INFO ").isPrefixOf controlLine then
        match parseInfo (controlLine.drop (ascii "INFO ").length) with
        | some info =>
          { result := .ok (some (.Info info)),
            status := .ControlLine last_bytes_read, buf := rest }
        | none =>
          { result := .err .InvalidInfo, status := .ControlLine last_bytes_read,
            buf := rest }
      else if 16 * 1024 < rest.length then
        { result := .err (.HeadTooLong rest.length),
          status := .ControlLine last_bytes_read, buf := rest }
      else
        { result := .err .InvalidCommand, status := .ControlLine last_bytes_read,
          buf := rest }

/-- Embedding of `decode` (file `proto/decoder/mod.rs`), one invocation of the
streaming decoder's state machine. -/
def decode (parseInfo : ByteBuf → Option ServerInfoM) (status : DecoderStatus)
    (readBuf : ByteBuf) : DecodeOut :=
  match status with
  | .ControlLine lbr => decodeControlLine parseInfo lbr readBuf
  | .Headers sid subj reply hlen plen =>
    decodeHeadersArm sid subj reply hlen plen readBuf
  | .Payload sid subj reply sc hs plen =>
    decodePayload sid subj reply sc hs plen readBuf
  | .Poisoned => { result := .err .Poisoned, status := .Poisoned, buf := readBuf }

/-- Decimal digit accumulator for `Display` of unsigned integers; the fuel is
a structural bound larger than the digit count. -/
def natDigitsGo : Nat → Nat → ByteBuf → ByteBuf
  | 0, _, acc => acc
  | fuel + 1, n, acc =>
    let acc1 := (48 + n % 10) :: acc
    if n < 10 then acc1 else natDigitsGo fuel (n / 10) acc1

/-- ASCII decimal representation of `n` (Rust `Display` for `u64`/`usize`). -/
def natDigits (n : Nat) : ByteBuf := natDigitsGo (n + 1) n []

/-- Embedding of `encode_headers` (file `proto/encoder/mod.rs`): the
`NATS/1.0` head line, one `name: value` line per stored value in map order,
and the terminating blank line. -/
def headerBlockBytes (headers : HeaderMap) : ByteBuf :=
  ascii "NATS/1.0" ++ crlf ++
    (headers.entries.map (fun e =>
      (e.2.map (fun v => strBytes e.1 ++ ascii ": " ++ strBytes v ++ crlf)).flatten)).flatten ++
    crlf

/-- Embedding of `encode` (file `proto/encoder/mod.rs`) with the `CONNECT`
JSON serializer as an oracle (`serde_json` is an external crate).  The hybrid
small-write/vectored buffering of the two encoder flavors concatenates to the
same byte stream, which is what this function returns. -/
def encode (connectJson : Nat → ByteBuf) : ClientOp → ByteBuf
  | .Publish message =>
    let verb := if message.headers.isEmpty then ascii "PUB" else ascii "HPUB"
    let replyPart :=
      match message.reply_subject with
      | some reply => strBytes reply ++ ascii " "
      | none => []
    let lenPart :=
      if message.headers.isEmpty then natDigits message.payload.length ++ crlf
      else
        let headersLen := (headerBlockBytes message.headers).length
        natDigits headersLen ++ ascii " " ++
          natDigits (headersLen + message.payload.length) ++ crlf ++
          headerBlockBytes message.headers
    verb ++ ascii " " ++ strBytes message.subject ++ ascii " " ++ replyPart ++
      lenPart ++ message.payload ++ crlf
  | .Subscribe id subject queue_group =>
    match queue_group with
    | some qg =>
      ascii "SUB " ++ strBytes subject ++ ascii " " ++ strBytes qg ++ ascii " " ++
        natDigits id ++ crlf
    | none => ascii "SUB " ++ strBytes subject ++ ascii " " ++ natDigits id ++ crlf
  | .Unsubscribe id max_messages =>
    match max_messages with
    | some maxMessages =>
      ascii "UNSUB " ++ natDigits id ++ ascii " " ++ natDigits maxMessages ++ crlf
    | none => ascii "UNSUB " ++ natDigits id ++ crlf
  | .Connect connect => ascii "CONNECT " ++ connectJson connect ++ crlf
  | .Ping => ascii "PING" ++ crlf
  | .Pong => ascii "PONG" ++ crlf

/-- Number of bytes an encoded `Publish` places after its first line: the
header block when headers are present, the payload, and the trailing
`CRLF`. -/
def publishBodyLen (message : MessageBase) : Nat :=
  (if message.headers.isEmpty then message.payload.length
   else (headerBlockBytes message.headers).length + message.payload.length) + 2

/-- Embedding of `InFlightCommand` (file `handler.rs`). -/
inductive InFlightCommand
  | Unimportant
  | Subscribe (id : Nat)
deriving DecidableEq, Repr

/-- Embedding of `Subscription` (file `handler.rs`); the bounded message
channel is external, so its `try_send` outcome is an oracle of the step
function, and `remaining` models the `NonZeroU64` as a positive natural. -/
structure Subscription where
  subject : Str
  queue_group : Option Str
  remaining : Option Nat
  failed_subscribe : Bool
deriving DecidableEq, Repr

/-- Embedding of `HandlerOutput` (file `handler.rs`). -/
inductive HandlerOutput
  | ServerError
  | UnexpectedState
  | Disconnected
  | Closed
deriving DecidableEq, Repr

/-- `ControlFlow<HandlerOutput, ()>` as returned by `handle_server_op`. -/
inductive HControl
  | Continue
  | Break (o : HandlerOutput)
deriving DecidableEq, Repr

/-- Outcome of `mpsc::Sender::try_send` on a subscription's channel. -/
inductive TrySendRes
  | ok
  | full
  | closed
deriving DecidableEq, Repr

/-- `MULTIPLEXED_SUBSCRIPTION_ID` is `SubscriptionId::MIN`, i.e. 1. -/
def MULTIPLEXED_SUBSCRIPTION_ID : Nat := 1

/-- The state of `Handler` (file `handler.rs`) that `handle_server_op`,
`ping` and the poll read loop touch: the connection's outgoing op queue
(`enqueue_write_op` appends), the ping counter, the in-flight command FIFO,
the two subscription maps, and the `quick_info` / `info` cells. -/
structure HandlerState where
  pending_pings : Nat
  in_flight_commands : List InFlightCommand
  subscriptions : List (Nat × Subscription)
  multiplexed_subscriptions : Option (List (Str × Nat))
  writes : List ClientOp
  is_failed_unsubscribe : Bool
  is_lameduck : Bool
  info : ServerInfoM
deriving DecidableEq, Repr

/-- `BTreeMap::get` on the id-sorted subscription map. -/
def subsLookup : List (Nat × Subscription) → Nat → Option Subscription
  | [], _ => none
  | (id', sub) :: rest, id => if id = id' then some sub else subsLookup rest id

/-- `BTreeMap::remove` on the subscription map. -/
def subsRemove : List (Nat × Subscription) → Nat → List (Nat × Subscription)
  | [], _ => []
  | (id', sub) :: rest, id =>
    if id = id' then rest else (id', sub) :: subsRemove rest id

/-- `BTreeMap::insert` on the subscription map (id-sorted). -/
def subsInsert : List (Nat × Subscription) → Nat → Subscription →
    List (Nat × Subscription)
  | [], id, sub => [(id, sub)]
  | (id', sub') :: rest, id, sub =>
    if id < id' then (id, sub) :: (id', sub') :: rest
    else if id = id' then (id, sub) :: rest
    else (id', sub') :: subsInsert rest id sub

/-- In-place update of a subscription's `remaining` field (`get_mut`). -/
def subsSetRemaining : List (Nat × Subscription) → Nat → Nat →
    List (Nat × Subscription)
  | [], _, _ => []
  | (id', sub) :: rest, id, r =>
    if id = id' then (id', { sub with remaining := some r }) :: rest
    else (id', sub) :: subsSetRemaining rest id r

/-- `BTreeMap::remove` by subject on the multiplexed waiter map; completing
the one-shot is external, so removal is the whole state effect. -/
def muxRemove : List (Str × Nat) → Str → List (Str × Nat)
  | [], _ => []
  | (subj', w) :: rest, subj =>
    if subj = subj' then rest else (subj', w) :: muxRemove rest subj

/-- Whether the multiplexed map holds a waiter for this subject. -/
def muxContains : List (Str × Nat) → Str → Bool
  | [], _ => false
  | (subj', _) :: rest, subj => subj = subj' || muxContains rest subj

/-- Embedding of `Handler::handle_server_op` (file `handler.rs`, lines
233-337), with the subscription channel's `try_send` outcome as an oracle.
Returns the `ControlFlow` of the source together with the updated state. -/
def handleServerOp (s : HandlerState) (op : ServerOp) (sendRes : TrySendRes) :
    HControl × HandlerState :=
  match op with
  | .Message message =>
    if message.subscription_id = MULTIPLEXED_SUBSCRIPTION_ID then
      match s.multiplexed_subscriptions with
      | none => (.Continue, s)
      | some mux =>
        if muxContains mux message.base.subject then
          (.Continue,
            { s with
                multiplexed_subscriptions :=
                  some (muxRemove mux message.base.subject) })
        else (.Continue, s)
    else
      match subsLookup s.subscriptions message.subscription_id with
      | none => (.Continue, s)
      | some sub =>
        match sendRes with
        | .closed =>
          (.Continue,
            { s with
                in_flight_commands := s.in_flight_commands ++ [.Unimportant],
                writes := s.writes ++
                  [.Unsubscribe message.subscription_id none] })
        | .full => (.Continue, s)
        | .ok =>
          match sub.remaining with
          | none => (.Continue, s)
          | some r =>
            if r - 1 = 0 then
              let subs := subsRemove s.subscriptions message.subscription_id
              (.Continue, { s with subscriptions := subs })
            else
              let subs :=
                subsSetRemaining s.subscriptions message.subscription_id (r - 1)
              (.Continue, { s with subscriptions := subs })
  | .Success =>
    match s.in_flight_commands with
    | [] => (.Break .UnexpectedState, s)
    | _ :: rest => (.Continue, { s with in_flight_commands := rest })
  | .Error error =>
    if error.is_fatal = some false then
      match s.in_flight_commands with
      | [] => (.Break .UnexpectedState, s)
      | cmd :: rest =>
        let s1 := { s with in_flight_commands := rest }
        match cmd with
        | .Unimportant => (.Continue, s1)
        | .Subscribe id =>
          match subsLookup s1.subscriptions id with
          | none => (.Continue, s1)
          | some sub =>
            let s2 := { s1 with subscriptions := subsRemove s1.subscriptions id }
            match sendRes with
            | .ok | .closed => (.Continue, s2)
            | .full =>
              (.Continue,
                { s2 with
                    subscriptions := subsInsert s2.subscriptions id
                      { sub with failed_subscribe := true },
                    is_failed_unsubscribe := true })
    else (.Break .ServerError, s)
  | .Ping => (.Continue, { s with writes := s.writes ++ [.Pong] })
  | .Pong => (.Continue, { s with pending_pings := s.pending_pings - 1 })
  | .Info info =>
    (.Continue, { s with is_lameduck := info.lame_duck_mode, info := info })

/-- Embedding of `Handler::ping` (file `handler.rs`, lines 340-355): below
two pending pings, reset the timer, enqueue a `Ping` and count it; otherwise
fail with `Disconnected`.  The timer reset has no state in this model. -/
def handlerPing (s : HandlerState) : Except HandlerOutput HandlerState :=
  if s.pending_pings < 2 then
    .ok { s with writes := s.writes ++ [.Ping],
                 pending_pings := s.pending_pings + 1 }
  else .error .Disconnected

/-- The server-op read loop of `<Handler as Future>::poll` (file `handler.rs`,
lines 412-422): each readable op is passed to `handle_server_op` with the
statement `this.handle_server_op(server_op);`, whose returned `ControlFlow`
is discarded, so the loop continues over the remaining ops whatever
`handle_server_op` decided.  Each list element pairs an incoming op with its
channel oracle. -/
def pollReadLoop (s : HandlerState) : List (ServerOp × TrySendRes) → HandlerState
  | [] => s
  | (op, sendRes) :: rest => pollReadLoop (handleServerOp s op sendRes).2 rest

/-- A freshly connected handler's state (`Handler::connect` with no recycled
subscriptions): no pending pings, empty queues and maps. -/
def initialHandler : HandlerState :=
  { pending_pings := 0, in_flight_commands := [], subscriptions := [],
    multiplexed_subscriptions := none, writes := [],
    is_failed_unsubscribe := false, is_lameduck := false,
    info := { lame_duck_mode := false, data := 0 } }

/-- Address family of a resolved socket address (`LastAttempted`). -/
inductive IpFamily
  | v4
  | v6
deriving DecidableEq, Repr

/-- A resolved socket address: its family and an identifying tag. -/
structure SockAddr where
  fam : IpFamily
  tag : Nat
deriving DecidableEq, Repr

/-- Embedding of `LastAttempted::opposite` (file `happy_eyeballs.rs`). -/
def IpFamily.opposite : IpFamily → IpFamily
  | .v4 => .v6
  | .v6 => .v4

/-- The family the dialer looks for next:
`last_attempted.map_or(Ipv6, opposite)`. -/
def nextKind (last_attempted : Option IpFamily) : IpFamily :=
  match last_attempted with
  | none => .v6
  | some k => k.opposite

/-- Remove the first queue element of the wanted family (the source's indexed
scan over `dns_received` followed by `Vec::remove`). -/
def removeFirstFam : List SockAddr → IpFamily → Option (SockAddr × List SockAddr)
  | [], _ => none
  | a :: rest, k =>
    if a.fam = k then some (a, rest)
    else (removeFirstFam rest k).map (fun p => (p.1, a :: p.2))

/-- Embedding of `next_dns_record` (file `happy_eyeballs.rs`, lines 93-111):
an empty queue yields nothing; otherwise the first address of the preferred
family is taken (updating `last_attempted` to that family), falling back to
the queue's head (updating `last_attempted` to the head's family). -/
def next_dns_record (dns_received : List SockAddr)
    (last_attempted : Option IpFamily) :
    Option (SockAddr × List SockAddr × Option IpFamily) :=
  match dns_received with
  | [] => none
  | a :: rest =>
    let k := nextKind last_attempted
    match removeFirstFam (a :: rest) k with
    | some (x, q) => some (x, q, some k)
    | none => some (a, rest, some a.fam)

/-- Iterating `next_dns_record` to exhaustion: the order in which the dialer
starts connection attempts.  The fuel is a structural bound; `dialOrder`
supplies the queue length. -/
def dialOrderGo : Nat → List SockAddr → Option IpFamily → List SockAddr
  | 0, _, _ => []
  | fuel + 1, q, last =>
    match next_dns_record q last with
    | none => []
    | some (a, q', last') => a :: dialOrderGo fuel q' last'

/-- The complete attempt order from a resolved address list. -/
def dialOrder (q : List SockAddr) : List SockAddr := dialOrderGo q.length q none

/-- A trivial `INFO` JSON oracle (used to instantiate concrete runs). -/
def parseInfoNone : ByteBuf → Option ServerInfoM := fun _ => none

/-- A trivial `CONNECT` JSON oracle (used to instantiate concrete runs). -/
def connectJsonNil : Nat → ByteBuf := fun _ => []

/-- The public mutating operations of `HeaderMap` (file `headers/map.rs`);
`extend` and `collect` are folds of `append`, so `append` covers them. -/
inductive HOp
  | insert (name value : Str)
  | append (name value : Str)
  | remove (name : Str)
  | clear
deriving DecidableEq, Repr

/-- Apply one `HeaderMap` operation. -/
def applyHOp (m : HeaderMap) : HOp → HeaderMap
  | .insert name value => m.insert name value
  | .append name value => m.append name value
  | .remove name => m.remove name
  | .clear => m.clear

/-- Run a sequence of map operations from `HeaderMap::new`. -/
def runHOps (ops : List HOp) : HeaderMap := ops.foldl applyHOp HeaderMap.new

/-- The total number of values stored in the entry list. -/
def totalValues (m : HeaderMap) : Nat := (m.entries.map (fun e => e.2.length)).sum

/-- Names iterate in strictly increasing `UniCase` order. -/
def mapSorted (m : HeaderMap) : Prop :=
  List.Chain' (fun a b => cmpKey a.1 b.1 = .lt) m.entries

/-- Well-formedness of the map: the tracked `len` is the total value count,
iteration order is sorted, the stored names are pairwise distinct (so
`keys_len` counts distinct names), and no name holds an empty value list
(`OneOrMany` is never empty). -/
def mapWF (m : HeaderMap) : Prop :=
  m.len = totalValues m ∧ mapSorted m ∧
    List.Pairwise (fun a b => cmpKey a.1 b.1 ≠ .eq) m.entries ∧
    ∀ e ∈ m.entries, e.2 ≠ []

/-!
Theorems. Claim theorems are marked with the claim id; the remaining theorems
are shared helper lemmas.
-/

/-- C1: `handle_server_op` classifies a fatal `-ERR` (here `Stale Connection`,
`is_fatal = Some(true)`) as `ControlFlow::Break(ServerError)`, but the poll
read loop of `<Handler as Future>::poll` discards that `ControlFlow`
(`this.handle_server_op(server_op);`), so processing the op leaves the loop
running with the post-op state — by the very type of `pollReadLoop`, no
`ServerError` output can ever be surfaced from it, and the handler does not
return `ServerError` as the claim requires. -/
theorem c1_fatal_server_error_dropped_by_poll :
    ServerError.is_fatal .StaleConnection = some true ∧
    (handleServerOp initialHandler (.Error .StaleConnection) .ok).1 =
      .Break .ServerError ∧
    pollReadLoop initialHandler [(.Error .StaleConnection, .ok)] =
      initialHandler := ⟨rfl, rfl, rfl⟩

/-- C2: the decode invocation is not total.  On the header block
`NATS/1.0\r\nA:\r\n` of an incoming HMSG (header length 14, a header line
with nothing after the colon), `decode_headers` indexes `line[0]` on an empty
buffer and panics instead of returning an op, no-progress or an error. -/
theorem c2_decode_panics_on_empty_header_value :
    (decode parseInfoNone (.Headers 1 ['s'] none 14 0)
        (ascii "NATS/1.0\r\nA:\r\n")).result = .panik := by decide

/-- C4: length limits do apply on receive.  A received header name of 65
bytes is rejected by the decoder with `HeaderName(TooLong)` — the decode path
validates through the same `HeaderName::try_from` as the public constructor,
including the 64-byte limit, contradicting the claim (and the source's own
doc note that server messages may violate the length rule). -/
theorem c4_received_long_header_name_rejected :
    (decode parseInfoNone (.Headers 1 ['s'] none 79 0)
        (ascii "NATS/1.0\r\n" ++ List.replicate 65 97 ++ ascii ":x\r\n")).result =
      .err (.HeaderName .TooLong) := by decide

/-- Helper: a buffer of `a` bytes contains no `CRLF`. -/
theorem findSub_crlf_replicate (n : Nat) :
    findSub crlf (List.replicate n 97) = none := by
  induction n with
  | zero => rfl
  | succ n ih =>
    simp only [List.replicate_succ, findSub, crlf]
    rw [show (([13, 10] : ByteBuf).isPrefixOf (97 :: List.replicate n 97)) = false by
      simp [List.isPrefixOf]]
    simp [ih, crlf] at ih ⊢

/-- Helper: in the control-line state, a buffer without `CRLF` always yields
no-progress, recording the buffer length, whatever the buffer length is. -/
theorem decode_noCrlf (pi : ByteBuf → Option ServerInfoM) (lbr : Nat)
    (buf : ByteBuf) (h : findSub crlf buf = none) :
    decode pi (.ControlLine lbr) buf =
      { result := .ok none, status := .ControlLine buf.length, buf := buf } := by
  unfold decode decodeControlLine
  rw [h]
  by_cases hl : lbr = buf.length
  · simp [hl]
  · simp [hl]

/-- Helper: when a `CRLF` is found but the control line matches none of the
known commands, the decoder reports `HeadTooLong` exactly when the buffer
remaining after the control line exceeds 16 KiB. -/
theorem decodeControl_unknownCommand (pi : ByteBuf → Option ServerInfoM)
    (lbr n : Nat) (buf : ByteBuf)
    (hfind : findSub crlf buf = some n)
    (hlbr : lbr ≠ buf.length)
    (h1 : (ascii "+OK").isPrefixOf (buf.take n) = false)
    (h2 : (ascii "MSG ").isPrefixOf (buf.take n) = false)
    (h3 : (ascii "HMSG ").isPrefixOf (buf.take n) = false)
    (h4 : (ascii "PING").isPrefixOf (buf.take n) = false)
    (h5 : (ascii "PONG").isPrefixOf (buf.take n) = false)
    (h6 : (ascii "-ERR ").isPrefixOf (buf.take n) = false)
    (h7 : (ascii "INFO ").isPrefixOf (buf.take n) = false)
    (hlong : 16 * 1024 < (buf.drop (n + 2)).length) :
    decode pi (.ControlLine lbr) buf =
      { result := .err (.HeadTooLong (buf.drop (n + 2)).length),
        status := .ControlLine lbr, buf := buf.drop (n + 2) } := by
  have hlong' := hlong
  rw [List.length_drop] at hlong'
  unfold decode decodeControlLine
  simp [hlbr, hfind, h1, h2, h3, h4, h5, h6, h7, hlong]
  omega

/-- C3 counterexample: a control-line-state buffer of 16385 bytes holding no
`CRLF` makes `decode` return no-progress (recording the byte count), not the
`HeadTooLong` error the claim requires. -/
theorem c3_counterexample_no_progress_on_long_buffer :
    decode parseInfoNone (.ControlLine 0) (List.replicate 16385 97) =
      { result := .ok none, status := .ControlLine 16385,
        buf := List.replicate 16385 97 } := by
  have h := decode_noCrlf parseInfoNone 0 _ (findSub_crlf_replicate 16385)
  rw [List.length_replicate] at h
  exact h

/-- C3 (amended): in the control-line state a buffer without `CRLF` yields
no-progress regardless of its length; `HeadTooLong` is returned only once a
`CRLF` is found, the control line matches no known command, and the buffer
remaining after the control line exceeds 16 KiB (16384 bytes). -/
theorem c3_head_too_long_needs_crlf :
    (∀ (pi : ByteBuf → Option ServerInfoM) (lbr : Nat) (buf : ByteBuf),
      findSub crlf buf = none →
      decode pi (.ControlLine lbr) buf =
        { result := .ok none, status := .ControlLine buf.length, buf := buf }) ∧
    (∀ (pi : ByteBuf → Option ServerInfoM) (lbr n : Nat) (buf : ByteBuf),
      findSub crlf buf = some n →
      lbr ≠ buf.length →
      (ascii "+OK").isPrefixOf (buf.take n) = false →
      (ascii "MSG ").isPrefixOf (buf.take n) = false →
      (ascii "HMSG ").isPrefixOf (buf.take n) = false →
      (ascii "PING").isPrefixOf (buf.take n) = false →
      (ascii "PONG").isPrefixOf (buf.take n) = false →
      (ascii "-ERR ").isPrefixOf (buf.take n) = false →
      (ascii "INFO ").isPrefixOf (buf.take n) = false →
      16 * 1024 < (buf.drop (n + 2)).length →
      decode pi (.ControlLine lbr) buf =
        { result := .err (.HeadTooLong (buf.drop (n + 2)).length),
          status := .ControlLine lbr, buf := buf.drop (n + 2) }) :=
  ⟨decode_noCrlf, decodeControl_unknownCommand⟩

/-- C3 witness: both parts of the amended claim applied at concrete buffers —
a one-byte buffer without `CRLF`, and an unknown two-byte command followed by
16385 buffered bytes. -/
theorem c3_head_too_long_needs_crlf_witness :
    decode parseInfoNone (.ControlLine 0) [97] =
      { result := .ok none, status := .ControlLine 1, buf := [97] } ∧
    decode parseInfoNone (.ControlLine 0)
        (88 :: 88 :: 13 :: 10 :: List.replicate 16385 97) =
      { result := .err (.HeadTooLong 16385), status := .ControlLine 0,
        buf := List.replicate 16385 97 } := by
  constructor
  · exact c3_head_too_long_needs_crlf.1 parseInfoNone 0 [97] (by decide)
  · have hdrop :
        List.drop (2 + 2) (88 :: 88 :: 13 :: 10 :: List.replicate 16385 97) =
          List.replicate 16385 97 := rfl
    have h := c3_head_too_long_needs_crlf.2 parseInfoNone 0 2
      (88 :: 88 :: 13 :: 10 :: List.replicate 16385 97)
      (by decide)
      (by simp only [List.length_cons, List.length_replicate]; omega)
      (by decide) (by decide) (by decide) (by decide) (by decide) (by decide)
      (by decide)
      (by rw [hdrop]; simp only [List.length_replicate]; omega)
    rw [hdrop] at h
    simp only [List.length_replicate] at h
    exact h

/-- C7: ping-liveness discipline of the handler.  A timer expiry seen with
`pending_pings < 2` enqueues exactly one `Ping` and increments the counter; an
expiry seen with `pending_pings ≥ 2` surfaces `Disconnected`; a received
`Pong` decrements the counter by one, saturating at zero (natural
subtraction); and no server op other than `Pong` ever decreases it. -/
theorem c7_pending_pings_discipline :
    ∀ s : HandlerState,
      (s.pending_pings < 2 →
        handlerPing s = .ok { s with writes := s.writes ++ [.Ping],
                                     pending_pings := s.pending_pings + 1 }) ∧
      (2 ≤ s.pending_pings → handlerPing s = .error .Disconnected) ∧
      (∀ r, handleServerOp s .Pong r =
        (.Continue, { s with pending_pings := s.pending_pings - 1 })) ∧
      (∀ op r, op ≠ .Pong →
        s.pending_pings ≤ ((handleServerOp s op r).2).pending_pings) := by
  intro s
  refine ⟨?_, ?_, ?_, ?_⟩
  · intro h; simp [handlerPing, h]
  · intro h; simp [handlerPing, Nat.not_lt.mpr h]
  · intro r; rfl
  · intro op r hne
    cases op with
    | Pong => exact absurd rfl hne
    | Message m =>
      unfold handleServerOp
      repeat' split
      all_goals try simp
      all_goals (repeat' split) <;> simp_all
    | Success =>
      unfold handleServerOp
      repeat' split
      all_goals try simp
      all_goals (repeat' split) <;> simp_all
    | Error e =>
      unfold handleServerOp
      repeat' split
      all_goals try simp
      all_goals (repeat' split) <;> simp_all
    | Ping => simp [handleServerOp]
    | Info i => simp [handleServerOp]

/-- C7 witness: the four conjuncts applied to concrete handler states — a
fresh handler (counter 0) for the enqueue case, a handler with two pending
pings for the disconnect case, and concrete `Pong` / `Ping` ops. -/
theorem c7_pending_pings_discipline_witness :
    handlerPing initialHandler =
      .ok { initialHandler with
              writes := initialHandler.writes ++ [.Ping],
              pending_pings := initialHandler.pending_pings + 1 } ∧
    handlerPing { initialHandler with pending_pings := 2 } =
      .error .Disconnected ∧
    handleServerOp initialHandler .Pong .ok =
      (.Continue,
        { initialHandler with
            pending_pings := initialHandler.pending_pings - 1 }) ∧
    initialHandler.pending_pings ≤
      ((handleServerOp initialHandler .Ping .ok).2).pending_pings :=
  ⟨(c7_pending_pings_discipline initialHandler).1 (by decide),
    (c7_pending_pings_discipline
      { initialHandler with pending_pings := 2 }).2.1 (by decide),
    (c7_pending_pings_discipline initialHandler).2.2.1 .ok,
    (c7_pending_pings_discipline initialHandler).2.2.2 .Ping .ok (by decide)⟩

/-- C10: an incoming `Message` whose subscription id is neither the reserved
multiplexed id 1 nor a key of the subscription map is silently dropped:
`handle_server_op` returns `Continue` and the whole handler state — the
subscription map, the in-flight queue, the outgoing op queue and every other
field — is unchanged. -/
theorem c10_unknown_subscription_message_dropped :
    ∀ (s : HandlerState) (msg : ServerMessage) (r : TrySendRes),
      msg.subscription_id ≠ MULTIPLEXED_SUBSCRIPTION_ID →
      subsLookup s.subscriptions msg.subscription_id = none →
      handleServerOp s (.Message msg) r = (.Continue, s) := by
  intro s msg r h1 h2
  simp [handleServerOp, h1, h2]

/-- C10 witness: a fresh handler receiving a message for the unknown
subscription id 7 is left exactly as it was. -/
theorem c10_unknown_subscription_message_dropped_witness :
    handleServerOp initialHandler
        (.Message
          { status_code := none, subscription_id := 7,
            base := { subject := ['a'], reply_subject := none,
                      headers := HeaderMap.new, payload := [] } }) .ok =
      (.Continue, initialHandler) :=
  c10_unknown_subscription_message_dropped initialHandler
    { status_code := none, subscription_id := 7,
      base := { subject := ['a'], reply_subject := none,
                headers := HeaderMap.new, payload := [] } } .ok
    (by decide) (by decide)

/-- Helper: the family scan of `next_dns_record` finds no queue entry exactly
when no entry has the wanted family. -/
theorem removeFirstFam_none_iff (q : List SockAddr) (k : IpFamily) :
    removeFirstFam q k = none ↔ ∀ x ∈ q, x.fam ≠ k := by
  induction q with
  | nil => simp [removeFirstFam]
  | cons a rest ih =>
    by_cases ha : a.fam = k
    · simp [removeFirstFam, ha]
    · simp only [removeFirstFam, if_neg ha, Option.map_eq_none', ih,
        List.mem_cons]
      constructor
      · rintro h x (rfl | hx)
        · exact ha
        · exact h x hx
      · intro h x hx
        exact h x (.inr hx)

/-- Helper: the entry removed by the family scan has the wanted family. -/
theorem removeFirstFam_fam (q : List SockAddr) (k : IpFamily) :
    ∀ (a : SockAddr) (q' : List SockAddr),
      removeFirstFam q k = some (a, q') → a.fam = k := by
  induction q with
  | nil => intro a q' h; simp [removeFirstFam] at h
  | cons hd tl ih =>
    intro a q' h
    by_cases hhd : hd.fam = k
    · simp only [removeFirstFam, if_pos hhd, Option.some_inj, Prod.mk.injEq] at h
      rw [← h.1]
      exact hhd
    · simp only [removeFirstFam, if_neg hhd, Option.map_eq_some'] at h
      obtain ⟨⟨x, l⟩, hp, heq⟩ := h
      simp only [Prod.mk.injEq] at heq
      rw [← heq.1]
      exact ih x l hp

/-- C8: on the resolved queue `[v4a, v6a, v4b, v6b]` the dialer attempts
`v6a, v4a, v6b, v4b`; in general, when the previous attempt has the opposite
family available the next candidate has exactly the preferred family — IPv6
when there is no previous attempt — and when no preferred-family address
remains the head of the queue is taken; `last_attempted` is updated to the
family actually attempted in both cases. -/
theorem c8_happy_eyeballs_alternates_families :
    dialOrder [⟨.v4, 0⟩, ⟨.v6, 1⟩, ⟨.v4, 2⟩, ⟨.v6, 3⟩] =
      [⟨.v6, 1⟩, ⟨.v4, 0⟩, ⟨.v6, 3⟩, ⟨.v4, 2⟩] ∧
    (∀ (q : List SockAddr) (last : Option IpFamily) (a : SockAddr)
        (q' : List SockAddr) (last' : Option IpFamily),
      next_dns_record q last = some (a, q', last') →
      ((∃ x ∈ q, x.fam = nextKind last) →
        a.fam = nextKind last ∧ last' = some (nextKind last)) ∧
      ((∀ x ∈ q, x.fam ≠ nextKind last) → q = a :: q' ∧ last' = some a.fam)) ∧
    nextKind none = .v6 := by
  refine ⟨by decide, ?_, rfl⟩
  intro q last a q' last' h
  cases q with
  | nil => simp [next_dns_record] at h
  | cons hd tl =>
    rw [next_dns_record] at h
    cases hrm : removeFirstFam (hd :: tl) (nextKind last) with
    | some p =>
      obtain ⟨x, l⟩ := p
      rw [hrm] at h
      simp only [Option.some_inj, Prod.mk.injEq] at h
      obtain ⟨hxa, hlq', hlast'⟩ := h
      constructor
      · intro _
        refine ⟨?_, hlast'.symm⟩
        rw [← hxa]
        exact removeFirstFam_fam _ _ x l hrm
      · intro hall
        exfalso
        have hnone := (removeFirstFam_none_iff (hd :: tl) (nextKind last)).mpr hall
        rw [hnone] at hrm
        exact Option.noConfusion hrm
    | none =>
      rw [hrm] at h
      simp only [Option.some_inj, Prod.mk.injEq] at h
      obtain ⟨hha, htq', hlast'⟩ := h
      constructor
      · intro hex
        exfalso
        obtain ⟨x, hx, hfam⟩ := hex
        exact ((removeFirstFam_none_iff _ _).mp hrm x hx) hfam
      · intro _
        rw [hha, htq', ← hlast', hha]
        exact ⟨rfl, rfl⟩

/-- C8 witness: the preference rule applied to the concrete queue
`[v4a, v6a]` with no previous attempt (an IPv6 entry exists, so the
candidate is IPv6), and the fallback rule applied to the all-IPv4 queue
`[v4a, v4b]` (the head is taken and `last_attempted` becomes IPv4). -/
theorem c8_happy_eyeballs_alternates_families_witness :
    ((⟨.v6, 1⟩ : SockAddr).fam = nextKind none ∧
      (some IpFamily.v6 : Option IpFamily) = some (nextKind none)) ∧
    (([⟨.v4, 0⟩, ⟨.v4, 2⟩] : List SockAddr) =
        (⟨.v4, 0⟩ : SockAddr) :: [⟨.v4, 2⟩] ∧
      (some IpFamily.v4 : Option IpFamily) =
        some (⟨.v4, 0⟩ : SockAddr).fam) :=
  ⟨(c8_happy_eyeballs_alternates_families.2.1
      [⟨.v4, 0⟩, ⟨.v6, 1⟩] none ⟨.v6, 1⟩ [⟨.v4, 0⟩] (some .v6)
      (by decide)).1 ⟨⟨.v6, 1⟩, by decide, by decide⟩,
    (c8_happy_eyeballs_alternates_families.2.1
      [⟨.v4, 0⟩, ⟨.v4, 2⟩] none ⟨.v4, 0⟩ [⟨.v4, 2⟩] (some .v4)
      (by decide)).2 (by decide)⟩

/-- Helper: first occurrence of `CRLF` after a carriage-return-free head. -/
theorem findSub_crlf_clean_head (head tail : ByteBuf) (h13 : (13 : Nat) ∉ head) :
    findSub crlf (head ++ 13 :: 10 :: tail) = some head.length := by
  induction head with
  | nil =>
    simp only [List.nil_append, findSub, crlf]
    rw [if_pos]
    · rfl
    · simp [List.isPrefixOf]
  | cons b bs ih =>
    have hb : b ≠ 13 := fun h => h13 (h ▸ List.mem_cons_self b bs)
    have h13' : (13 : Nat) ∉ bs := fun h => h13 (List.mem_cons_of_mem b h)
    simp only [List.cons_append, findSub, crlf, List.append_eq]
    rw [show (([13, 10] : ByteBuf).isPrefixOf
        (b :: (bs ++ 13 :: 10 :: tail))) = false by
      simp [List.isPrefixOf]
      intro h
      exact absurd h.symm hb]
    simp only [Bool.false_eq_true, if_false]
    rw [show ([13, 10] : ByteBuf) = crlf from rfl, ih h13']
    rfl

/-- Helper: every byte emitted by the decimal formatter is an ASCII digit. -/
theorem natDigitsGo_range (fuel : Nat) :
    ∀ (n : Nat) (acc : ByteBuf), (∀ b ∈ acc, 48 ≤ b ∧ b ≤ 57) →
      ∀ b ∈ natDigitsGo fuel n acc, 48 ≤ b ∧ b ≤ 57 := by
  induction fuel with
  | zero => intro n acc hacc b hb; exact hacc b hb
  | succ fuel ih =>
    intro n acc hacc b hb
    have hd : ∀ x ∈ (48 + n % 10) :: acc, 48 ≤ x ∧ x ≤ 57 := by
      intro x hx
      rcases List.mem_cons.mp hx with rfl | hx
      · have := Nat.mod_lt n (show 0 < 10 by omega)
        omega
      · exact hacc x hx
    rw [natDigitsGo] at hb
    by_cases hn : n < 10
    · rw [if_pos hn] at hb
      exact hd b hb
    · rw [if_neg hn] at hb
      exact ih (n / 10) _ hd b hb

/-- Helper: decimal digits never contain a carriage return. -/
theorem natDigits_no13 (n : Nat) : (13 : Nat) ∉ natDigits n := by
  intro h
  have := natDigitsGo_range (n + 1) n [] (by simp) 13 h
  omega

/-- Helper: the unknown-command dispatch branch yields `InvalidCommand` when
at most 16 KiB remain after the control line. -/
theorem decodeControl_invalidCommand (pi : ByteBuf → Option ServerInfoM)
    (lbr n : Nat) (buf : ByteBuf)
    (hfind : findSub crlf buf = some n)
    (hlbr : lbr ≠ buf.length)
    (h1 : (ascii "+OK").isPrefixOf (buf.take n) = false)
    (h2 : (ascii "MSG ").isPrefixOf (buf.take n) = false)
    (h3 : (ascii "HMSG ").isPrefixOf (buf.take n) = false)
    (h4 : (ascii "PING").isPrefixOf (buf.take n) = false)
    (h5 : (ascii "PONG").isPrefixOf (buf.take n) = false)
    (h6 : (ascii "-ERR ").isPrefixOf (buf.take n) = false)
    (h7 : (ascii "INFO ").isPrefixOf (buf.take n) = false)
    (hshort : (buf.drop (n + 2)).length ≤ 16 * 1024) :
    decode pi (.ControlLine lbr) buf =
      { result := .err .InvalidCommand,
        status := .ControlLine lbr, buf := buf.drop (n + 2) } := by
  have hshort' := hshort
  rw [List.length_drop] at hshort'
  unfold decode decodeControlLine
  simp [hlbr, hfind, h1, h2, h3, h4, h5, h6, h7, Nat.not_lt.mpr hshort]
  omega

/-- Helper: byte lists differing in the first element are not prefixes. -/
theorem notPrefix_head (a b : Nat) (as bs : ByteBuf) (h : a ≠ b) :
    ((a :: as).isPrefixOf (b :: bs)) = false := by
  simp [List.isPrefixOf, h]

/-- Helper: byte lists differing in the second element are not prefixes. -/
theorem notPrefix_second (a c d : Nat) (as bs : ByteBuf) (h : c ≠ d) :
    ((a :: c :: as).isPrefixOf (a :: d :: bs)) = false := by
  simp [List.isPrefixOf, h]

/-- Helper: dropping the control line and its `CRLF` leaves the tail. -/
theorem drop_clean_head (head tail : ByteBuf) :
    (head ++ 13 :: 10 :: tail).drop (head.length + 2) = tail := by
  have h : head ++ 13 :: 10 :: tail = (head ++ [13, 10]) ++ tail := by
    simp [List.append_assoc]
  rw [h, show head.length + 2 = (head ++ [13, 10]).length by simp]
  exact List.drop_left _ _

/-- Helper: taking the head length yields the control line. -/
theorem take_clean_head (head tail : ByteBuf) :
    (head ++ 13 :: 10 :: tail).take head.length = head :=
  List.take_left _ _

/-- Helper: a buffer holding a control line is never empty. -/
theorem length_clean_head_ne (head tail : ByteBuf) :
    0 ≠ (head ++ 13 :: 10 :: tail).length := by
  simp only [List.length_append, List.length_cons]
  omega

/-- Helper: cons preserves carriage-return freeness. -/
theorem no13_cons (b : Nat) (l : ByteBuf) (hb : b ≠ 13)
    (hl : (13 : Nat) ∉ l) : (13 : Nat) ∉ b :: l := by
  intro h
  rcases List.mem_cons.mp h with h | h
  · exact hb h.symm
  · exact hl h

/-- Helper: append preserves carriage-return freeness. -/
theorem no13_append (l r : ByteBuf) (hl : (13 : Nat) ∉ l)
    (hr : (13 : Nat) ∉ r) : (13 : Nat) ∉ l ++ r := by
  intro h
  rcases List.mem_append.mp h with h | h
  · exact hl h
  · exact hr h

/-- Helper: a control line whose first byte differs from every known command
byte is decoded as `InvalidCommand`. -/
theorem decode_rejects_nonP (pi : ByteBuf → Option ServerInfoM) (b : Nat)
    (rest tail : ByteBuf)
    (hb : b ≠ 43 ∧ b ≠ 77 ∧ b ≠ 72 ∧ b ≠ 80 ∧ b ≠ 45 ∧ b ≠ 73)
    (h13 : (13 : Nat) ∉ b :: rest) (hshort : tail.length ≤ 16 * 1024) :
    decode pi (.ControlLine 0) ((b :: rest) ++ 13 :: 10 :: tail) =
      { result := .err .InvalidCommand, status := .ControlLine 0,
        buf := tail } := by
  obtain ⟨hb1, hb2, hb3, hb4, hb5, hb6⟩ := hb
  have htake := take_clean_head (b :: rest) tail
  have h := decodeControl_invalidCommand pi 0 (b :: rest).length
    ((b :: rest) ++ 13 :: 10 :: tail)
    (findSub_crlf_clean_head _ _ h13)
    (length_clean_head_ne _ _)
    (by rw [htake, show ascii "+OK" = [43, 79, 75] from rfl]
        exact notPrefix_head _ _ _ _ (fun hc => hb1 hc.symm))
    (by rw [htake, show ascii "MSG " = [77, 83, 71, 32] from rfl]
        exact notPrefix_head _ _ _ _ (fun hc => hb2 hc.symm))
    (by rw [htake, show ascii "HMSG " = [72, 77, 83, 71, 32] from rfl]
        exact notPrefix_head _ _ _ _ (fun hc => hb3 hc.symm))
    (by rw [htake, show ascii "PING" = [80, 73, 78, 71] from rfl]
        exact notPrefix_head _ _ _ _ (fun hc => hb4 hc.symm))
    (by rw [htake, show ascii "PONG" = [80, 79, 78, 71] from rfl]
        exact notPrefix_head _ _ _ _ (fun hc => hb4 hc.symm))
    (by rw [htake, show ascii "-ERR " = [45, 69, 82, 82, 32] from rfl]
        exact notPrefix_head _ _ _ _ (fun hc => hb5 hc.symm))
    (by rw [htake, show ascii "INFO " = [73, 78, 70, 79, 32] from rfl]
        exact notPrefix_head _ _ _ _ (fun hc => hb6 hc.symm))
    (by rw [drop_clean_head]; exact hshort)
  rw [drop_clean_head] at h
  exact h

/-- Helper: a control line `80 :: c :: _` (a `P` head that is neither `PING`
nor `PONG` at its second byte) is decoded as `InvalidCommand`. -/
theorem decode_rejects_P (pi : ByteBuf → Option ServerInfoM) (c : Nat)
    (rest tail : ByteBuf) (hc : c ≠ 73 ∧ c ≠ 79)
    (h13 : (13 : Nat) ∉ 80 :: c :: rest) (hshort : tail.length ≤ 16 * 1024) :
    decode pi (.ControlLine 0) ((80 :: c :: rest) ++ 13 :: 10 :: tail) =
      { result := .err .InvalidCommand, status := .ControlLine 0,
        buf := tail } := by
  have htake := take_clean_head (80 :: c :: rest) tail
  have h := decodeControl_invalidCommand pi 0 (80 :: c :: rest).length
    ((80 :: c :: rest) ++ 13 :: 10 :: tail)
    (findSub_crlf_clean_head _ _ h13)
    (length_clean_head_ne _ _)
    (by rw [htake, show ascii "+OK" = [43, 79, 75] from rfl]
        exact notPrefix_head _ _ _ _ (by omega))
    (by rw [htake, show ascii "MSG " = [77, 83, 71, 32] from rfl]
        exact notPrefix_head _ _ _ _ (by omega))
    (by rw [htake, show ascii "HMSG " = [72, 77, 83, 71, 32] from rfl]
        exact notPrefix_head _ _ _ _ (by omega))
    (by rw [htake, show ascii "PING" = [80, 73, 78, 71] from rfl]
        exact notPrefix_second _ _ _ _ _ (fun hcc => hc.1 hcc.symm))
    (by rw [htake, show ascii "PONG" = [80, 79, 78, 71] from rfl]
        exact notPrefix_second _ _ _ _ _ (fun hcc => hc.2 hcc.symm))
    (by rw [htake, show ascii "-ERR " = [45, 69, 82, 82, 32] from rfl]
        exact notPrefix_head _ _ _ _ (by omega))
    (by rw [htake, show ascii "INFO " = [73, 78, 70, 79, 32] from rfl]
        exact notPrefix_head _ _ _ _ (by omega))
    (by rw [drop_clean_head]; exact hshort)
  rw [drop_clean_head] at h
  exact h

/-- Helper: a control line `72 :: c :: _` (an `H` head that is not `HMSG` at
its second byte) is decoded as `InvalidCommand`. -/
theorem decode_rejects_H (pi : ByteBuf → Option ServerInfoM) (c : Nat)
    (rest tail : ByteBuf) (hc : c ≠ 77)
    (h13 : (13 : Nat) ∉ 72 :: c :: rest) (hshort : tail.length ≤ 16 * 1024) :
    decode pi (.ControlLine 0) ((72 :: c :: rest) ++ 13 :: 10 :: tail) =
      { result := .err .InvalidCommand, status := .ControlLine 0,
        buf := tail } := by
  have htake := take_clean_head (72 :: c :: rest) tail
  have h := decodeControl_invalidCommand pi 0 (72 :: c :: rest).length
    ((72 :: c :: rest) ++ 13 :: 10 :: tail)
    (findSub_crlf_clean_head _ _ h13)
    (length_clean_head_ne _ _)
    (by rw [htake, show ascii "+OK" = [43, 79, 75] from rfl]
        exact notPrefix_head _ _ _ _ (by omega))
    (by rw [htake, show ascii "MSG " = [77, 83, 71, 32] from rfl]
        exact notPrefix_head _ _ _ _ (by omega))
    (by rw [htake, show ascii "HMSG " = [72, 77, 83, 71, 32] from rfl]
        exact notPrefix_second _ _ _ _ _ (fun hcc => hc hcc.symm))
    (by rw [htake, show ascii "PING" = [80, 73, 78, 71] from rfl]
        exact notPrefix_head _ _ _ _ (by omega))
    (by rw [htake, show ascii "PONG" = [80, 79, 78, 71] from rfl]
        exact notPrefix_head _ _ _ _ (by omega))
    (by rw [htake, show ascii "-ERR " = [45, 69, 82, 82, 32] from rfl]
        exact notPrefix_head _ _ _ _ (by omega))
    (by rw [htake, show ascii "INFO " = [73, 78, 70, 79, 32] from rfl]
        exact notPrefix_head _ _ _ _ (by omega))
    (by rw [drop_clean_head]; exact hshort)
  rw [drop_clean_head] at h
  exact h

/-- Helper: a control line matching no known server-op verb dispatches to the
unknown-command branch, which returns `InvalidCommand` when at most 16 KiB
remain after the control line and `HeadTooLong` otherwise. -/
theorem decodeControl_unknown_dispatch (pi : ByteBuf → Option ServerInfoM)
    (lbr n : Nat) (buf : ByteBuf)
    (hfind : findSub crlf buf = some n)
    (hlbr : lbr ≠ buf.length)
    (h1 : (ascii "+OK").isPrefixOf (buf.take n) = false)
    (h2 : (ascii "MSG ").isPrefixOf (buf.take n) = false)
    (h3 : (ascii "HMSG ").isPrefixOf (buf.take n) = false)
    (h4 : (ascii "PING").isPrefixOf (buf.take n) = false)
    (h5 : (ascii "PONG").isPrefixOf (buf.take n) = false)
    (h6 : (ascii "-ERR ").isPrefixOf (buf.take n) = false)
    (h7 : (ascii "INFO ").isPrefixOf (buf.take n) = false) :
    decode pi (.ControlLine lbr) buf =
      { result := .err (if (buf.drop (n + 2)).length ≤ 16 * 1024
            then .InvalidCommand else .HeadTooLong (buf.drop (n + 2)).length),
        status := .ControlLine lbr, buf := buf.drop (n + 2) } := by
  by_cases hlen : (buf.drop (n + 2)).length ≤ 16 * 1024
  · rw [if_pos hlen]
    exact decodeControl_invalidCommand pi lbr n buf hfind hlbr h1 h2 h3 h4 h5
      h6 h7 hlen
  · rw [if_neg hlen]
    exact decodeControl_unknownCommand pi lbr n buf hfind hlbr h1 h2 h3 h4 h5
      h6 h7 (by omega)

/-- Helper: a CR-free control line starting `P c ...` with `c` neither `I`
nor `O` is rejected, with `InvalidCommand` or `HeadTooLong` depending on how
many bytes follow the line. -/
theorem decode_rejects_P_any (pi : ByteBuf → Option ServerInfoM) (c : Nat)
    (rest tail : ByteBuf) (hc : c ≠ 73 ∧ c ≠ 79)
    (h13 : (13 : Nat) ∉ 80 :: c :: rest) :
    decode pi (.ControlLine 0) ((80 :: c :: rest) ++ 13 :: 10 :: tail) =
      { result := .err (if tail.length ≤ 16 * 1024 then .InvalidCommand
          else .HeadTooLong tail.length),
        status := .ControlLine 0, buf := tail } := by
  have htake := take_clean_head (80 :: c :: rest) tail
  have h := decodeControl_unknown_dispatch pi 0 (80 :: c :: rest).length
    ((80 :: c :: rest) ++ 13 :: 10 :: tail)
    (findSub_crlf_clean_head _ _ h13)
    (length_clean_head_ne _ _)
    (by rw [htake, show ascii "+OK" = [43, 79, 75] from rfl]
        exact notPrefix_head _ _ _ _ (by omega))
    (by rw [htake, show ascii "MSG " = [77, 83, 71, 32] from rfl]
        exact notPrefix_head _ _ _ _ (by omega))
    (by rw [htake, show ascii "HMSG " = [72, 77, 83, 71, 32] from rfl]
        exact notPrefix_head _ _ _ _ (by omega))
    (by rw [htake, show ascii "PING" = [80, 73, 78, 71] from rfl]
        exact notPrefix_second _ _ _ _ _ (fun hcc => hc.1 hcc.symm))
    (by rw [htake, show ascii "PONG" = [80, 79, 78, 71] from rfl]
        exact notPrefix_second _ _ _ _ _ (fun hcc => hc.2 hcc.symm))
    (by rw [htake, show ascii "-ERR " = [45, 69, 82, 82, 32] from rfl]
        exact notPrefix_head _ _ _ _ (by omega))
    (by rw [htake, show ascii "INFO " = [73, 78, 70, 79, 32] from rfl]
        exact notPrefix_head _ _ _ _ (by omega))
  rw [drop_clean_head] at h
  exact h

/-- Helper: a CR-free control line starting `H c ...` with `c ≠ M` is
rejected, with `InvalidCommand` or `HeadTooLong` depending on how many bytes
follow the line. -/
theorem decode_rejects_H_any (pi : ByteBuf → Option ServerInfoM) (c : Nat)
    (rest tail : ByteBuf) (hc : c ≠ 77)
    (h13 : (13 : Nat) ∉ 72 :: c :: rest) :
    decode pi (.ControlLine 0) ((72 :: c :: rest) ++ 13 :: 10 :: tail) =
      { result := .err (if tail.length ≤ 16 * 1024 then .InvalidCommand
          else .HeadTooLong tail.length),
        status := .ControlLine 0, buf := tail } := by
  have htake := take_clean_head (72 :: c :: rest) tail
  have h := decodeControl_unknown_dispatch pi 0 (72 :: c :: rest).length
    ((72 :: c :: rest) ++ 13 :: 10 :: tail)
    (findSub_crlf_clean_head _ _ h13)
    (length_clean_head_ne _ _)
    (by rw [htake, show ascii "+OK" = [43, 79, 75] from rfl]
        exact notPrefix_head _ _ _ _ (by omega))
    (by rw [htake, show ascii "MSG " = [77, 83, 71, 32] from rfl]
        exact notPrefix_head _ _ _ _ (by omega))
    (by rw [htake, show ascii "HMSG " = [72, 77, 83, 71, 32] from rfl]
        exact notPrefix_second _ _ _ _ _ (fun hcc => hc hcc.symm))
    (by rw [htake, show ascii "PING" = [80, 73, 78, 71] from rfl]
        exact notPrefix_head _ _ _ _ (by omega))
    (by rw [htake, show ascii "PONG" = [80, 79, 78, 71] from rfl]
        exact notPrefix_head _ _ _ _ (by omega))
    (by rw [htake, show ascii "-ERR " = [45, 69, 82, 82, 32] from rfl]
        exact notPrefix_head _ _ _ _ (by omega))
    (by rw [htake, show ascii "INFO " = [73, 78, 70, 79, 32] from rfl]
        exact notPrefix_head _ _ _ _ (by omega))
  rw [drop_clean_head] at h
  exact h

/-- C5 counterexample: the byte stream the streaming encoder produces for the
valid client op `Subscribe{id 2, subject a}` — `SUB a 2\r\n` — fed back
through the streaming decoder does not yield the op: the decoder (which
parses server operations) fails with `InvalidCommand`. -/
theorem c5_counterexample_subscribe_no_roundtrip :
    (decode parseInfoNone (.ControlLine 0)
        (encode connectJsonNil (.Subscribe 2 ['a'] none))).result =
      .err .InvalidCommand := by decide

/-- C5 (amended): only `Ping` and `Pong` round-trip through the streaming
decoder, which parses server operations.  Every other valid client op is
rejected by the decoder: `Subscribe`, `Unsubscribe` and `Connect` with
`InvalidCommand`, and `Publish` (with or without headers) with
`InvalidCommand` when at most 16 KiB of body follows its first line and
`HeadTooLong` otherwise (the side conditions say that subjects, queue
groups, reply subjects and the serialized connect options contain no
carriage return, which every validated value satisfies). -/
theorem c5_roundtrip_only_ping_pong :
    (∀ (pi : ByteBuf → Option ServerInfoM) (cj : Nat → ByteBuf),
      decode pi (.ControlLine 0) (encode cj .Ping) =
        { result := .ok (some .Ping), status := .ControlLine 0, buf := [] } ∧
      decode pi (.ControlLine 0) (encode cj .Pong) =
        { result := .ok (some .Pong), status := .ControlLine 0, buf := [] }) ∧
    (∀ (pi : ByteBuf → Option ServerInfoM) (cj : Nat → ByteBuf) (id : Nat)
        (subj : Str) (qg : Option Str),
      (13 : Nat) ∉ strBytes subj →
      (∀ g, qg = some g → (13 : Nat) ∉ strBytes g) →
      (decode pi (.ControlLine 0) (encode cj (.Subscribe id subj qg))).result =
        .err .InvalidCommand) ∧
    (∀ (pi : ByteBuf → Option ServerInfoM) (cj : Nat → ByteBuf) (id : Nat)
        (mm : Option Nat),
      (decode pi (.ControlLine 0) (encode cj (.Unsubscribe id mm))).result =
        .err .InvalidCommand) ∧
    (∀ (pi : ByteBuf → Option ServerInfoM) (cj : Nat → ByteBuf) (c : Nat),
      (13 : Nat) ∉ cj c →
      (decode pi (.ControlLine 0) (encode cj (.Connect c))).result =
        .err .InvalidCommand) ∧
    (∀ (pi : ByteBuf → Option ServerInfoM) (cj : Nat → ByteBuf)
        (msg : MessageBase),
      (13 : Nat) ∉ strBytes msg.subject →
      (∀ rs, msg.reply_subject = some rs → (13 : Nat) ∉ strBytes rs) →
      (decode pi (.ControlLine 0) (encode cj (.Publish msg))).result =
        .err (if publishBodyLen msg ≤ 16 * 1024 then .InvalidCommand
          else .HeadTooLong (publishBodyLen msg))) := by
  refine ⟨fun pi cj => ⟨rfl, rfl⟩, ?_, ?_, ?_, ?_⟩
  · -- Subscribe
    intro pi cj id subj qg hs hq
    cases qg with
    | none =>
      have hbuf : encode cj (.Subscribe id subj none) =
          (83 :: 85 :: 66 :: 32 :: (strBytes subj ++ 32 :: natDigits id)) ++
            13 :: 10 :: ([] : ByteBuf) := by
        simp [encode, show ascii "SUB " = [83, 85, 66, 32] from rfl,
          show ascii " " = [32] from rfl, crlf, List.append_assoc]
      rw [hbuf,
        decode_rejects_nonP pi 83 _ _ (by omega)
          (no13_cons _ _ (by omega) (no13_cons _ _ (by omega)
            (no13_cons _ _ (by omega) (no13_cons _ _ (by omega)
              (no13_append _ _ hs
                (no13_cons _ _ (by omega) (natDigits_no13 _)))))))
          (by simp)]
    | some g =>
      have hg := hq g rfl
      have hbuf : encode cj (.Subscribe id subj (some g)) =
          (83 :: 85 :: 66 :: 32 ::
            (strBytes subj ++ 32 :: (strBytes g ++ 32 :: natDigits id))) ++
            13 :: 10 :: ([] : ByteBuf) := by
        simp [encode, show ascii "SUB " = [83, 85, 66, 32] from rfl,
          show ascii " " = [32] from rfl, crlf, List.append_assoc]
      rw [hbuf,
        decode_rejects_nonP pi 83 _ _ (by omega)
          (no13_cons _ _ (by omega) (no13_cons _ _ (by omega)
            (no13_cons _ _ (by omega) (no13_cons _ _ (by omega)
              (no13_append _ _ hs (no13_cons _ _ (by omega)
                (no13_append _ _ hg
                  (no13_cons _ _ (by omega) (natDigits_no13 _)))))))))
          (by simp)]
  · -- Unsubscribe
    intro pi cj id mm
    cases mm with
    | none =>
      have hbuf : encode cj (.Unsubscribe id none) =
          (85 :: 78 :: 83 :: 85 :: 66 :: 32 :: natDigits id) ++
            13 :: 10 :: ([] : ByteBuf) := by
        simp [encode, show ascii "UNSUB " = [85, 78, 83, 85, 66, 32] from rfl,
          crlf, List.append_assoc]
      rw [hbuf,
        decode_rejects_nonP pi 85 _ _ (by omega)
          (no13_cons _ _ (by omega) (no13_cons _ _ (by omega)
            (no13_cons _ _ (by omega) (no13_cons _ _ (by omega)
              (no13_cons _ _ (by omega) (no13_cons _ _ (by omega)
                (natDigits_no13 _)))))))
          (by simp)]
    | some m =>
      have hbuf : encode cj (.Unsubscribe id (some m)) =
          (85 :: 78 :: 83 :: 85 :: 66 :: 32 ::
            (natDigits id ++ 32 :: natDigits m)) ++
            13 :: 10 :: ([] : ByteBuf) := by
        simp [encode, show ascii "UNSUB " = [85, 78, 83, 85, 66, 32] from rfl,
          show ascii " " = [32] from rfl, crlf, List.append_assoc]
      rw [hbuf,
        decode_rejects_nonP pi 85 _ _ (by omega)
          (no13_cons _ _ (by omega) (no13_cons _ _ (by omega)
            (no13_cons _ _ (by omega) (no13_cons _ _ (by omega)
              (no13_cons _ _ (by omega) (no13_cons _ _ (by omega)
                (no13_append _ _ (natDigits_no13 _)
                  (no13_cons _ _ (by omega) (natDigits_no13 _)))))))))
          (by simp)]
  · -- Connect
    intro pi cj c hcj
    have hbuf : encode cj (.Connect c) =
        (67 :: 79 :: 78 :: 78 :: 69 :: 67 :: 84 :: 32 :: cj c) ++
          13 :: 10 :: ([] : ByteBuf) := by
      simp [encode,
        show ascii "CONNECT " = [67, 79, 78, 78, 69, 67, 84, 32] from rfl,
        crlf, List.append_assoc]
    rw [hbuf,
      decode_rejects_nonP pi 67 _ _ (by omega)
        (no13_cons _ _ (by omega) (no13_cons _ _ (by omega)
          (no13_cons _ _ (by omega) (no13_cons _ _ (by omega)
            (no13_cons _ _ (by omega) (no13_cons _ _ (by omega)
              (no13_cons _ _ (by omega) (no13_cons _ _ (by omega) hcj))))))))
        (by simp)]
  · -- Publish
    intro pi cj msg hs hr
    obtain ⟨subj, reply, headers, payload⟩ := msg
    simp only at hs hr
    by_cases he : headers.isEmpty
    · cases reply with
      | none =>
        have htl : (payload ++ [13, 10] : ByteBuf).length =
            publishBodyLen ⟨subj, none, headers, payload⟩ := by
          unfold publishBodyLen
          simp only
          rw [if_pos he]
          simp
        have hbuf : encode cj (.Publish ⟨subj, none, headers, payload⟩) =
            (80 :: 85 :: 66 :: 32 ::
              (strBytes subj ++ 32 :: natDigits payload.length)) ++
              13 :: 10 :: (payload ++ [13, 10]) := by
          simp [encode, he, show ascii "PUB" = [80, 85, 66] from rfl,
            show ascii " " = [32] from rfl, crlf, List.append_assoc]
        rw [hbuf,
          decode_rejects_P_any pi 85 _ _ (by omega)
            (no13_cons _ _ (by omega) (no13_cons _ _ (by omega)
              (no13_cons _ _ (by omega) (no13_cons _ _ (by omega)
                (no13_append _ _ hs
                  (no13_cons _ _ (by omega) (natDigits_no13 _)))))))]
        dsimp only
        rw [htl]
      | some r =>
        have hrr := hr r rfl
        have htl : (payload ++ [13, 10] : ByteBuf).length =
            publishBodyLen ⟨subj, some r, headers, payload⟩ := by
          unfold publishBodyLen
          simp only
          rw [if_pos he]
          simp
        have hbuf : encode cj (.Publish ⟨subj, some r, headers, payload⟩) =
            (80 :: 85 :: 66 :: 32 ::
              (strBytes subj ++ 32 ::
                (strBytes r ++ 32 :: natDigits payload.length))) ++
              13 :: 10 :: (payload ++ [13, 10]) := by
          simp [encode, he, show ascii "PUB" = [80, 85, 66] from rfl,
            show ascii " " = [32] from rfl, crlf, List.append_assoc]
        rw [hbuf,
          decode_rejects_P_any pi 85 _ _ (by omega)
            (no13_cons _ _ (by omega) (no13_cons _ _ (by omega)
              (no13_cons _ _ (by omega) (no13_cons _ _ (by omega)
                (no13_append _ _ hs (no13_cons _ _ (by omega)
                  (no13_append _ _ hrr (no13_cons _ _ (by omega)
                    (natDigits_no13 _)))))))))]
        dsimp only
        rw [htl]
    · cases reply with
      | none =>
        have htl : (headerBlockBytes headers ++ (payload ++ [13, 10]) :
              ByteBuf).length =
            publishBodyLen ⟨subj, none, headers, payload⟩ := by
          unfold publishBodyLen
          simp only
          rw [if_neg he]
          simp only [List.length_append, List.length_cons, List.length_nil]
          omega
        have hbuf : encode cj (.Publish ⟨subj, none, headers, payload⟩) =
            (72 :: 80 :: 85 :: 66 :: 32 ::
              (strBytes subj ++ 32 ::
                (natDigits (headerBlockBytes headers).length ++ 32 ::
                  natDigits ((headerBlockBytes headers).length +
                    payload.length)))) ++
              13 :: 10 :: (headerBlockBytes headers ++ (payload ++ [13, 10])) := by
          simp [encode, he, show ascii "HPUB" = [72, 80, 85, 66] from rfl,
            show ascii " " = [32] from rfl, crlf, List.append_assoc]
        rw [hbuf,
          decode_rejects_H_any pi 80 _ _ (by omega)
            (no13_cons _ _ (by omega) (no13_cons _ _ (by omega)
              (no13_cons _ _ (by omega) (no13_cons _ _ (by omega)
                (no13_cons _ _ (by omega)
                  (no13_append _ _ hs (no13_cons _ _ (by omega)
                    (no13_append _ _ (natDigits_no13 _)
                      (no13_cons _ _ (by omega) (natDigits_no13 _))))))))))]
        dsimp only
        rw [htl]
      | some r =>
        have hrr := hr r rfl
        have htl : (headerBlockBytes headers ++ (payload ++ [13, 10]) :
              ByteBuf).length =
            publishBodyLen ⟨subj, some r, headers, payload⟩ := by
          unfold publishBodyLen
          simp only
          rw [if_neg he]
          simp only [List.length_append, List.length_cons, List.length_nil]
          omega
        have hbuf : encode cj (.Publish ⟨subj, some r, headers, payload⟩) =
            (72 :: 80 :: 85 :: 66 :: 32 ::
              (strBytes subj ++ 32 :: (strBytes r ++ 32 ::
                (natDigits (headerBlockBytes headers).length ++ 32 ::
                  natDigits ((headerBlockBytes headers).length +
                    payload.length))))) ++
              13 :: 10 :: (headerBlockBytes headers ++ (payload ++ [13, 10])) := by
          simp [encode, he, show ascii "HPUB" = [72, 80, 85, 66] from rfl,
            show ascii " " = [32] from rfl, crlf, List.append_assoc]
        rw [hbuf,
          decode_rejects_H_any pi 80 _ _ (by omega)
            (no13_cons _ _ (by omega) (no13_cons _ _ (by omega)
              (no13_cons _ _ (by omega) (no13_cons _ _ (by omega)
                (no13_cons _ _ (by omega)
                  (no13_append _ _ hs (no13_cons _ _ (by omega)
                    (no13_append _ _ hrr (no13_cons _ _ (by omega)
                      (no13_append _ _ (natDigits_no13 _)
                        (no13_cons _ _ (by omega)
                          (natDigits_no13 _))))))))))))]
        dsimp only
        rw [htl]

/-- C5 witness: the amended claim applied at concrete ops — `Ping`
round-trips, concrete `Subscribe`, `Unsubscribe`, `Connect` and a small
`Publish` are rejected with `InvalidCommand`, and a `Publish` whose body
after the first line exceeds 16 KiB is rejected with `HeadTooLong`. -/
theorem c5_roundtrip_only_ping_pong_witness :
    decode parseInfoNone (.ControlLine 0) (encode connectJsonNil .Ping) =
      { result := .ok (some .Ping), status := .ControlLine 0, buf := [] } ∧
    (decode parseInfoNone (.ControlLine 0)
        (encode connectJsonNil (.Subscribe 2 ['b'] (some ['q'])))).result =
      .err .InvalidCommand ∧
    (decode parseInfoNone (.ControlLine 0)
        (encode connectJsonNil (.Unsubscribe 3 (some 5)))).result =
      .err .InvalidCommand ∧
    (decode parseInfoNone (.ControlLine 0)
        (encode connectJsonNil (.Connect 0))).result =
      .err .InvalidCommand ∧
    (decode parseInfoNone (.ControlLine 0)
        (encode connectJsonNil
          (.Publish { subject := ['a'], reply_subject := none,
                      headers := HeaderMap.new, payload := [104] }))).result =
      .err .InvalidCommand ∧
    (decode parseInfoNone (.ControlLine 0)
        (encode connectJsonNil
          (.Publish { subject := ['a'], reply_subject := none,
                      headers := HeaderMap.new,
                      payload := List.replicate 16383 104 }))).result =
      .err (.HeadTooLong 16385) := by
  refine ⟨(c5_roundtrip_only_ping_pong.1 parseInfoNone connectJsonNil).1,
    c5_roundtrip_only_ping_pong.2.1 parseInfoNone connectJsonNil 2 ['b']
      (some ['q']) (by decide)
      (fun g h => by injection h with h2; rw [← h2]; decide),
    c5_roundtrip_only_ping_pong.2.2.1 parseInfoNone connectJsonNil 3 (some 5),
    c5_roundtrip_only_ping_pong.2.2.2.1 parseInfoNone connectJsonNil 0
      (by decide), ?_, ?_⟩
  · have h := c5_roundtrip_only_ping_pong.2.2.2.2 parseInfoNone connectJsonNil
      { subject := ['a'], reply_subject := none, headers := HeaderMap.new,
        payload := [104] }
      (by decide) (fun rs hx => Option.noConfusion hx)
    rw [h]
    decide
  · have h := c5_roundtrip_only_ping_pong.2.2.2.2 parseInfoNone connectJsonNil
      { subject := ['a'], reply_subject := none, headers := HeaderMap.new,
        payload := List.replicate 16383 104 }
      (by decide) (fun rs hx => Option.noConfusion hx)
    have hlen : publishBodyLen
        { subject := ['a'], reply_subject := none, headers := HeaderMap.new,
          payload := List.replicate 16383 104 } = 16385 := by
      unfold publishBodyLen
      dsimp only
      rw [if_pos (show HeaderMap.new.isEmpty = true from rfl),
        List.length_replicate]
    rw [h, hlen, if_neg (by norm_num)]


/-- Helper: every UTF-8 encoding takes at least one byte. -/
theorem utf8EncodeChar_length_pos (c : Char) : 1 ≤ (utf8EncodeChar c).length := by
  unfold utf8EncodeChar
  simp only []
  split <;> try simp
  split <;> try simp
  split <;> simp

/-- Helper: byte expansion of a cons cell. -/
theorem strBytes_cons (c : Char) (s : Str) :
    strBytes (c :: s) = utf8EncodeChar c ++ strBytes s := by
  simp [strBytes]

/-- Helper: byte length of a cons cell. -/
theorem byteLen_cons (c : Char) (s : Str) :
    byteLen (c :: s) = (utf8EncodeChar c).length + byteLen s := by
  simp [byteLen, strBytes_cons]

/-- Helper: the empty string has no bytes. -/
theorem byteLen_nil : byteLen [] = 0 := rfl

/-- Helper: only the empty string has zero bytes. -/
theorem byteLen_eq_zero (s : Str) (h : byteLen s = 0) : s = [] := by
  cases s with
  | nil => rfl
  | cons c cs =>
    rw [byteLen_cons] at h
    have := utf8EncodeChar_length_pos c
    omega

/-- Helper: a string of at most one byte is empty or one character. -/
theorem byteLen_le_one (t : Str) (h : byteLen t ≤ 1) :
    t = [] ∨ ∃ c, t = [c] := by
  cases t with
  | nil => exact .inl rfl
  | cons c cs =>
    right
    refine ⟨c, ?_⟩
    rw [byteLen_cons] at h
    have := utf8EncodeChar_length_pos c
    have hcs : byteLen cs = 0 := by omega
    rw [byteLen_eq_zero cs hcs]

/-- Helper: `split('.')` always yields at least one token. -/
theorem splitOnDot_ne_nil (s : Str) : splitOnDot s ≠ [] := by
  cases s with
  | nil => simp [splitOnDot]
  | cons c rest =>
    unfold splitOnDot
    by_cases hc : c = '.'
    · simp [hc]
    · rw [if_neg hc]
      cases h : splitOnDot rest <;> simp

/-- Helper: tokens produced by `split('.')` contain no dot. -/
theorem mem_splitOnDot_no_dot (s : Str) :
    ∀ t ∈ splitOnDot s, '.' ∉ t := by
  induction s with
  | nil =>
    intro t ht
    simp [splitOnDot] at ht
    simp [ht]
  | cons c rest ih =>
    intro t ht
    unfold splitOnDot at ht
    by_cases hc : c = '.'
    · rw [if_pos hc] at ht
      rcases List.mem_cons.mp ht with rfl | ht
      · simp
      · exact ih t ht
    · rw [if_neg hc] at ht
      cases h : splitOnDot rest with
      | nil => exact absurd h (splitOnDot_ne_nil rest)
      | cons t0 ts =>
        rw [h] at ht
        rcases List.mem_cons.mp ht with rfl | ht
        · intro hmem
          rcases List.mem_cons.mp hmem with hd | hd
          · exact hc hd.symm
          · exact ih t0 (h ▸ List.mem_cons_self t0 ts) hd
        · exact ih t (h ▸ List.mem_cons_of_mem t0 ht)

/-- Helper: a dot-free token cannot contain two consecutive dots. -/
theorem containsSeq_dotdot_false (t : Str) (h : '.' ∉ t) :
    containsSeq ['.', '.'] t = false := by
  induction t with
  | nil => rfl
  | cons a t' ih =>
    have ha : a ≠ '.' := fun hh => h (hh ▸ List.mem_cons_self a t')
    have h' : '.' ∉ t' := fun hh => h (List.mem_cons_of_mem a hh)
    unfold containsSeq
    rw [ih h', show ((['.', '.'] : Str).isPrefixOf (a :: t')) = false by
      simp [List.isPrefixOf]
      intro hd
      exact absurd hd.symm ha]
    rfl

/-- Helper: `List.contains` agrees with membership on characters. -/
theorem contains_char_iff (t : Str) (c : Char) : (t.contains c = true) ↔ c ∈ t :=
  List.elem_iff

/-- Helper: a non-empty token of at most one byte holding `w` is `[w]`. -/
theorem wildcard_single (t : Str) (htne : t ≠ []) (hnb : ¬ 1 < byteLen t)
    (w : Char) (hw : w ∈ t) : t = [w] := by
  rcases byteLen_le_one t (by omega) with rfl | ⟨c, rfl⟩
  · exact absurd rfl htne
  · rcases List.mem_singleton.mp hw with rfl
    rfl

/-- Helper: the token loop accepts exactly the token rules of the claim
(assuming the tokens come from `split('.')`, hence are dot-free). -/
theorem validateTokens_ok_iff (ts : List Str) (hnd : ∀ t ∈ ts, '.' ∉ t) :
    validateTokens ts = .ok () ↔
      ((∀ t ∈ ts, t ≠ [] ∧ (('*' ∈ t ∨ '>' ∈ t) → (t = ['*'] ∨ t = ['>']))) ∧
        (∀ t ∈ ts.dropLast, '>' ∉ t)) := by
  induction ts with
  | nil => simp [validateTokens]
  | cons t rest ih =>
    have hnd_t : '.' ∉ t := hnd t (List.mem_cons_self t rest)
    have hnd_rest : ∀ x ∈ rest, '.' ∉ x :=
      fun x hx => hnd x (List.mem_cons_of_mem t hx)
    have ihr := ih hnd_rest
    unfold validateTokens
    rw [containsSeq_dotdot_false t hnd_t, Bool.or_false]
    cases t with
    | nil =>
      simp only [List.isEmpty_nil, if_true]
      constructor
      · intro h; exact absurd h (by simp)
      · rintro ⟨hP, -⟩
        exact absurd rfl (hP [] (List.mem_cons_self _ _)).1
    | cons a as =>
      simp only [List.isEmpty_cons, Bool.false_eq_true, if_false]
      have htne : a :: as ≠ ([] : Str) := by simp
      by_cases hw : 1 < byteLen (a :: as) ∧ ('*' ∈ a :: as ∨ '>' ∈ a :: as)
      · rw [if_pos (by
          simp only [Bool.and_eq_true, decide_eq_true_eq, Bool.or_eq_true,
            contains_char_iff]
          exact hw)]
        constructor
        · intro h; exact absurd h (by simp)
        · rintro ⟨hP, -⟩
          rcases (hP (a :: as) (List.mem_cons_self _ _)).2 hw.2 with h1 | h1
          · rw [h1] at hw
            exact absurd hw.1 (by decide)
          · rw [h1] at hw
            exact absurd hw.1 (by decide)
      · rw [if_neg (by
          simp only [Bool.and_eq_true, decide_eq_true_eq, Bool.or_eq_true,
            contains_char_iff]
          exact hw)]
        have hS2 : ('*' ∈ a :: as ∨ '>' ∈ a :: as) →
            (a :: as = ['*'] ∨ a :: as = ['>']) := by
          intro hmem
          have hnb : ¬ 1 < byteLen (a :: as) := fun hb => hw ⟨hb, hmem⟩
          rcases hmem with hm | hm
          · exact .inl (wildcard_single _ htne hnb _ hm)
          · exact .inr (wildcard_single _ htne hnb _ hm)
        by_cases h3 : a :: as = ['>'] ∧ rest ≠ []
        · rw [if_pos (by
            simp only [Bool.and_eq_true, decide_eq_true_eq]
            exact h3)]
          constructor
          · intro h; exact absurd h (by simp)
          · rintro ⟨-, hQ⟩
            rw [List.dropLast_cons_of_ne_nil h3.2] at hQ
            have := hQ (a :: as) (List.mem_cons_self _ _)
            rw [h3.1] at this
            exact absurd (List.mem_singleton_self '>') this
        · rw [if_neg (by
            simp only [Bool.and_eq_true, decide_eq_true_eq]
            exact h3)]
          rw [ihr]
          constructor
          · rintro ⟨hPrest, hQrest⟩
            refine ⟨?_, ?_⟩
            · intro x hx
              rcases List.mem_cons.mp hx with rfl | hx
              · exact ⟨htne, hS2⟩
              · exact hPrest x hx
            · intro x hx
              cases hrest : rest with
              | nil => rw [hrest, List.dropLast_single] at hx; simp at hx
              | cons r rs =>
                rw [hrest] at hx
                rw [List.dropLast_cons_of_ne_nil (by simp)] at hx
                rcases List.mem_cons.mp hx with rfl | hx
                · intro hgt
                  rcases hS2 (.inr hgt) with h1 | h1
                  · rw [h1] at hgt
                    exact absurd hgt (by decide)
                  · exact h3 ⟨h1, by rw [hrest]; simp⟩
                · exact hQrest x (by rw [hrest]; exact hx)
          · rintro ⟨hP, hQ⟩
            refine ⟨fun x hx => hP x (List.mem_cons_of_mem _ hx), ?_⟩
            intro x hx
            cases hrest : rest with
            | nil => rw [hrest] at hx; simp at hx
            | cons r rs =>
              refine hQ x ?_
              rw [hrest, List.dropLast_cons_of_ne_nil (by simp)]
              exact List.mem_cons_of_mem _ (hrest ▸ hx)

/-- Helper: regrouping of the token rules. -/
theorem subjectTokensOk_iff (s : Str) :
    subjectTokensOk s ↔
      ((∀ t ∈ splitOnDot s,
          t ≠ [] ∧ (('*' ∈ t ∨ '>' ∈ t) → (t = ['*'] ∨ t = ['>']))) ∧
        (∀ t ∈ (splitOnDot s).dropLast, '>' ∉ t)) := by
  unfold subjectTokensOk
  constructor
  · rintro ⟨h1, h2, h3⟩
    exact ⟨fun t ht => ⟨h1 t ht, h2 t ht⟩, h3⟩
  · rintro ⟨h12, h3⟩
    exact ⟨fun t ht => (h12 t ht).1, fun t ht => (h12 t ht).2, h3⟩

/-- Helper: the token loop only ever yields success, `BrokenToken` or
`BrokenWildcard`. -/
theorem validateTokens_result (ts : List Str) :
    validateTokens ts = .ok () ∨ validateTokens ts = .error .BrokenToken ∨
      validateTokens ts = .error .BrokenWildcard := by
  induction ts with
  | nil => exact .inl rfl
  | cons t rest ih =>
    unfold validateTokens
    split
    · exact .inr (.inl rfl)
    · split
      · exact .inr (.inr rfl)
      · split
        · exact .inr (.inr rfl)
        · exact ih

/-- C6: subject validation acceptance is exactly the claim's rule set
(non-empty, at most 256 bytes, no unicode whitespace, non-empty tokens,
wildcards alone in their token, tail wildcard last), and each rejected
string is classified: `Empty` for the empty string, `TooLong` past 256
bytes, `IllegalCharacter` for whitespace, and `BrokenToken`/`BrokenWildcard`
exactly for the strings that pass the first three checks but break the
token rules. -/
theorem c6_subject_validation (s : Str) :
    (validate_subject s = .ok () ↔ subjectSpec s) ∧
    (validate_subject s = .error .Empty ↔ s = []) ∧
    (validate_subject s = .error .TooLong ↔ s ≠ [] ∧ 256 < byteLen s) ∧
    (validate_subject s = .error .IllegalCharacter ↔
      s ≠ [] ∧ byteLen s ≤ 256 ∧ s.any isRustWhitespace = true) ∧
    ((validate_subject s = .error .BrokenToken ∨
        validate_subject s = .error .BrokenWildcard) ↔
      (s ≠ [] ∧ byteLen s ≤ 256 ∧ (∀ c ∈ s, ¬ isRustWhitespace c) ∧
        ¬ subjectTokensOk s)) := by
  have hnd := mem_splitOnDot_no_dot s
  have hTok : validateTokens (splitOnDot s) = .ok () ↔ subjectTokensOk s :=
    (validateTokens_ok_iff (splitOnDot s) hnd).trans (subjectTokensOk_iff s).symm
  by_cases h0 : s = []
  · subst h0
    refine ⟨?_, ?_, ?_, ?_, ?_⟩ <;> simp [validate_subject, subjectSpec]
  · have h0' : s.isEmpty = false := by
      cases s
      · exact absurd rfl h0
      · rfl
    unfold validate_subject
    rw [h0']
    simp only [Bool.false_eq_true, if_false]
    by_cases h1 : 256 < byteLen s
    · rw [if_pos h1]
      refine ⟨?_, ?_, ?_, ?_, ?_⟩
      · constructor
        · intro h; exact absurd h (by simp)
        · rintro ⟨-, hle, -⟩; omega
      · constructor
        · intro h; exact absurd h (by simp)
        · intro h; exact absurd h h0
      · constructor
        · intro _; exact ⟨h0, h1⟩
        · intro _; rfl
      · constructor
        · intro h; exact absurd h (by simp)
        · rintro ⟨-, hle, -⟩; omega
      · constructor
        · rintro (h | h) <;> exact absurd h (by simp)
        · rintro ⟨-, hle, -⟩; omega
    · rw [if_neg h1]
      by_cases h2 : s.any isRustWhitespace = true
      · rw [if_pos h2]
        obtain ⟨cw, hcw, hw⟩ := List.any_eq_true.mp h2
        refine ⟨?_, ?_, ?_, ?_, ?_⟩
        · constructor
          · intro h; exact absurd h (by simp)
          · rintro ⟨-, -, hall, -⟩; exact absurd hw (hall cw hcw)
        · constructor
          · intro h; exact absurd h (by simp)
          · intro h; exact absurd h h0
        · constructor
          · intro h; exact absurd h (by simp)
          · rintro ⟨-, hgt⟩; omega
        · constructor
          · intro _; exact ⟨h0, Nat.not_lt.mp h1, h2⟩
          · intro _; rfl
        · constructor
          · rintro (h | h) <;> exact absurd h (by simp)
          · rintro ⟨-, -, hall, -⟩; exact absurd hw (hall cw hcw)
      · rw [if_neg h2]
        have hws : ∀ c ∈ s, ¬ isRustWhitespace c := by
          intro c hc hw
          exact h2 (List.any_eq_true.mpr ⟨c, hc, hw⟩)
        have hres := validateTokens_result (splitOnDot s)
        refine ⟨?_, ?_, ?_, ?_, ?_⟩
        · rw [hTok]
          constructor
          · intro ht
            exact ⟨h0, Nat.not_lt.mp h1, hws, ht⟩
          · rintro ⟨-, -, -, ht⟩
            exact ht
        · constructor
          · intro h
            rcases hres with hr | hr | hr <;> rw [hr] at h <;>
              exact absurd h (by simp)
          · intro h
            exact absurd h h0
        · constructor
          · intro h
            rcases hres with hr | hr | hr <;> rw [hr] at h <;>
              exact absurd h (by simp)
          · rintro ⟨-, hgt⟩
            omega
        · constructor
          · intro h
            rcases hres with hr | hr | hr <;> rw [hr] at h <;>
              exact absurd h (by simp)
          · rintro ⟨-, -, hany⟩
            exact absurd hany h2
        · constructor
          · intro h
            refine ⟨h0, Nat.not_lt.mp h1, hws, ?_⟩
            intro htok
            have hok := hTok.mpr htok
            rcases h with h | h <;> rw [hok] at h <;> exact absurd h (by simp)
          · rintro ⟨-, -, -, htok⟩
            rcases hres with hr | hr | hr
            · exact absurd (hTok.mp hr) htok
            · exact .inl hr
            · exact .inr hr


/-- Helper: the byte-list comparison reports equality exactly for equal lists. -/
theorem listCmpNat_eq_iff (a : List Nat) :
    ∀ b, listCmpNat a b = .eq ↔ a = b := by
  induction a with
  | nil =>
    intro b
    cases b <;> simp [listCmpNat]
  | cons x xs ih =>
    intro b
    cases b with
    | nil => simp [listCmpNat]
    | cons y ys =>
      unfold listCmpNat
      by_cases hxy : x < y
      · simp [hxy]
        omega
      · rw [if_neg hxy]
        by_cases hyx : y < x
        · simp [hyx]
          omega
        · rw [if_neg hyx]
          have hxyeq : x = y := by omega
          subst hxyeq
          simp [ih ys]

/-- Helper: the byte-list comparison is antisymmetric. -/
theorem listCmpNat_gt_iff (a : List Nat) :
    ∀ b, listCmpNat a b = .gt ↔ listCmpNat b a = .lt := by
  induction a with
  | nil =>
    intro b
    cases b <;> simp [listCmpNat]
  | cons x xs ih =>
    intro b
    cases b with
    | nil => simp [listCmpNat]
    | cons y ys =>
      unfold listCmpNat
      by_cases hxy : x < y
      · have : ¬ y < x := by omega
        simp [hxy, this]
      · rw [if_neg hxy]
        by_cases hyx : y < x
        · simp [hyx]
        · rw [if_neg hyx, if_neg hyx, if_neg hxy]
          exact ih ys

/-- Helper: the byte-list comparison is transitive. -/
theorem listCmpNat_lt_trans (a : List Nat) :
    ∀ b c, listCmpNat a b = .lt → listCmpNat b c = .lt →
      listCmpNat a c = .lt := by
  induction a with
  | nil =>
    intro b c hab hbc
    cases c with
    | nil =>
      cases b with
      | nil => exact hab
      | cons y ys => simp [listCmpNat] at hbc
    | cons z zs => simp [listCmpNat]
  | cons x xs ih =>
    intro b c hab hbc
    cases b with
    | nil => simp [listCmpNat] at hab
    | cons y ys =>
      cases c with
      | nil => simp [listCmpNat] at hbc
      | cons z zs =>
        unfold listCmpNat at hab hbc ⊢
        by_cases hxy : x < y
        · rw [if_pos hxy] at hab
          by_cases hyz : y < z
          · rw [if_pos (by omega)]
          · rw [if_neg hyz] at hbc
            by_cases hzy : z < y
            · rw [if_pos hzy] at hbc
              exact absurd hbc (by simp)
            · have : y = z := by omega
              subst this
              rw [if_pos hxy]
        · rw [if_neg hxy] at hab
          by_cases hyx : y < x
          · rw [if_pos hyx] at hab
            exact absurd hab (by simp)
          · have hxyeq : x = y := by omega
            subst hxyeq
            by_cases hyz : x < z
            · rw [if_pos hyz]
            · rw [if_neg hyz] at hbc ⊢
              by_cases hzy : z < x
              · rw [if_pos hzy] at hbc
                exact absurd hbc (by simp)
              · rw [if_neg hzy] at hbc ⊢
                rw [if_neg hxy] at hab
                exact ih ys zs hab hbc

/-- Helper: key comparison reports equality exactly for equal foldings. -/
theorem cmpKey_eq_iff (a b : Str) : cmpKey a b = .eq ↔ foldKey a = foldKey b :=
  listCmpNat_eq_iff (foldKey a) (foldKey b)

/-- Helper: key comparison is reflexive. -/
theorem cmpKey_refl (a : Str) : cmpKey a a = .eq :=
  (cmpKey_eq_iff a a).mpr rfl

/-- Helper: key comparison is antisymmetric. -/
theorem cmpKey_gt_iff (a b : Str) : cmpKey a b = .gt ↔ cmpKey b a = .lt :=
  listCmpNat_gt_iff (foldKey a) (foldKey b)

/-- Helper: key comparison is transitive. -/
theorem cmpKey_lt_trans (a b c : Str) (h1 : cmpKey a b = .lt)
    (h2 : cmpKey b c = .lt) : cmpKey a c = .lt :=
  listCmpNat_lt_trans (foldKey a) (foldKey b) (foldKey c) h1 h2

/-- Helper: an equal key inherits strict bounds. -/
theorem cmpKey_eq_lt_trans (a b c : Str) (h1 : cmpKey a b = .eq)
    (h2 : cmpKey b c = .lt) : cmpKey a c = .lt := by
  unfold cmpKey at h2 ⊢
  rw [(cmpKey_eq_iff a b).mp h1]
  exact h2

/-- Helper: key equality is symmetric. -/
theorem cmpKey_eq_symm (a b : Str) (h : cmpKey a b = .eq) : cmpKey b a = .eq :=
  (cmpKey_eq_iff b a).mpr ((cmpKey_eq_iff a b).mp h).symm

/-- Helper: key equality is transitive. -/
theorem cmpKey_eq_trans (a b c : Str) (h1 : cmpKey a b = .eq)
    (h2 : cmpKey b c = .eq) : cmpKey a c = .eq :=
  (cmpKey_eq_iff a c).mpr (((cmpKey_eq_iff a b).mp h1).trans
    ((cmpKey_eq_iff b c).mp h2))

/-- Helper: strictly smaller keys are not equal. -/
theorem cmpKey_lt_ne_eq (a b : Str) (h : cmpKey a b = .lt) :
    cmpKey a b ≠ .eq := by
  rw [h]
  exact fun hc => Ordering.noConfusion hc

/-- Helper: the entry order is transitive. -/
theorem entriesR_trans :
    Transitive (fun a b : Str × List Str => cmpKey a.1 b.1 = .lt) :=
  fun _ _ _ h1 h2 => cmpKey_lt_trans _ _ _ h1 h2

/-- Helper: lookup misses every strictly larger entry. -/
theorem findValues_nil_of_lt_all (l : List (Str × List Str)) (k : Str)
    (h : ∀ e ∈ l, cmpKey k e.1 = .lt) : findValues l k = [] := by
  induction l with
  | nil => rfl
  | cons e rest ih =>
    unfold findValues
    rw [if_neg (cmpKey_lt_ne_eq _ _ (h e (List.mem_cons_self e rest)))]
    exact ih (fun x hx => h x (List.mem_cons_of_mem e hx))

/-- Helper: a key below a sorted list's head is below every entry. -/
theorem lt_all_of_sorted (hd : Str × List Str) (l : List (Str × List Str))
    (k : Str)
    (hc : List.Chain' (fun a b : Str × List Str => cmpKey a.1 b.1 = .lt) (hd :: l))
    (hk : cmpKey k hd.1 = .lt) :
    ∀ e ∈ hd :: l, cmpKey k e.1 = .lt := by
  haveI : IsTrans (Str × List Str)
      (fun a b : Str × List Str => cmpKey a.1 b.1 = .lt) :=
    ⟨fun _ _ _ h1 h2 => cmpKey_lt_trans _ _ _ h1 h2⟩
  have hp := List.chain'_iff_pairwise.mp hc
  intro e he
  rcases List.mem_cons.mp he with rfl | he
  · exact hk
  · exact cmpKey_lt_trans _ _ _ hk ((List.pairwise_cons.mp hp).1 e he)

/-- Helper: `insert` stores exactly the fresh value list under its name. -/
theorem findValues_insert_self (l : List (Str × List Str)) (k : Str)
    (vs : List Str) : findValues (entriesInsert l k vs) k = vs := by
  induction l with
  | nil => simp [entriesInsert, findValues, cmpKey_refl]
  | cons e rest ih =>
    unfold entriesInsert
    cases hcmp : cmpKey k e.1 with
    | lt => simp [findValues, cmpKey_refl]
    | eq => simp [findValues, hcmp]
    | gt =>
      unfold findValues
      rw [if_neg (by rw [hcmp]; exact fun hc => Ordering.noConfusion hc)]
      exact ih

/-- Helper: on a sorted map `append` adds its value at the end of the
name's list. -/
theorem findValues_append_self (l : List (Str × List Str)) (k v : Str)
    (hc : List.Chain' (fun a b : Str × List Str => cmpKey a.1 b.1 = .lt) l) :
    findValues (entriesAppend l k v) k = findValues l k ++ [v] := by
  induction l with
  | nil => simp [entriesAppend, findValues, cmpKey_refl]
  | cons e rest ih =>
    unfold entriesAppend
    cases hcmp : cmpKey k e.1 with
    | lt =>
      have hall := lt_all_of_sorted e rest k hc hcmp
      unfold findValues
      rw [if_pos (cmpKey_refl k),
        if_neg (cmpKey_lt_ne_eq _ _ hcmp),
        show findValues rest k = [] from findValues_nil_of_lt_all _ _
          (fun x hx => hall x (List.mem_cons_of_mem e hx))]
      rfl
    | eq => simp [findValues, hcmp]
    | gt =>
      unfold findValues
      rw [if_neg (by rw [hcmp]; exact fun h => Ordering.noConfusion h),
        if_neg (by rw [hcmp]; exact fun h => Ordering.noConfusion h)]
      exact ih (List.Chain'.tail hc)

/-- Helper: on a sorted map `remove` clears the name's values. -/
theorem findValues_remove_self (l : List (Str × List Str)) (k : Str)
    (hc : List.Chain' (fun a b : Str × List Str => cmpKey a.1 b.1 = .lt) l) :
    findValues (entriesRemove l k) k = [] := by
  induction l with
  | nil => rfl
  | cons e rest ih =>
    unfold entriesRemove
    by_cases hcmp : cmpKey k e.1 = .eq
    · rw [if_pos hcmp]
      apply findValues_nil_of_lt_all
      intro x hx
      haveI : IsTrans (Str × List Str)
          (fun a b : Str × List Str => cmpKey a.1 b.1 = .lt) :=
        ⟨fun _ _ _ h1 h2 => cmpKey_lt_trans _ _ _ h1 h2⟩
      have hp := List.chain'_iff_pairwise.mp hc
      have := (List.pairwise_cons.mp hp).1 x hx
      exact cmpKey_eq_lt_trans _ _ _ hcmp this
    · rw [if_neg hcmp]
      unfold findValues
      rw [if_neg hcmp]
      exact ih (List.Chain'.tail hc)

/-- Helper: `insert` leaves other names' values unchanged. -/
theorem findValues_insert_other (l : List (Str × List Str)) (k k' : Str)
    (vs : List Str) (hne : cmpKey k' k ≠ .eq) :
    findValues (entriesInsert l k vs) k' = findValues l k' := by
  induction l with
  | nil => simp [entriesInsert, findValues, hne]
  | cons e rest ih =>
    unfold entriesInsert
    cases hcmp : cmpKey k e.1 with
    | lt =>
      unfold findValues
      rw [if_neg hne]
      rfl
    | eq =>
      unfold findValues
      by_cases h' : cmpKey k' e.1 = .eq
      · exact absurd (cmpKey_eq_trans _ _ _ h' (cmpKey_eq_symm _ _ hcmp)) hne
      · rw [if_neg h', if_neg h']
    | gt =>
      unfold findValues
      by_cases h' : cmpKey k' e.1 = .eq
      · rw [if_pos h', if_pos h']
      · rw [if_neg h', if_neg h']
        exact ih

/-- Helper: `append` leaves other names' values unchanged. -/
theorem findValues_append_other (l : List (Str × List Str)) (k k' v : Str)
    (hne : cmpKey k' k ≠ .eq) :
    findValues (entriesAppend l k v) k' = findValues l k' := by
  induction l with
  | nil => simp [entriesAppend, findValues, hne]
  | cons e rest ih =>
    unfold entriesAppend
    cases hcmp : cmpKey k e.1 with
    | lt =>
      unfold findValues
      rw [if_neg hne]
      rfl
    | eq =>
      unfold findValues
      by_cases h' : cmpKey k' e.1 = .eq
      · exact absurd (cmpKey_eq_trans _ _ _ h' (cmpKey_eq_symm _ _ hcmp)) hne
      · rw [if_neg h', if_neg h']
    | gt =>
      unfold findValues
      by_cases h' : cmpKey k' e.1 = .eq
      · rw [if_pos h', if_pos h']
      · rw [if_neg h', if_neg h']
        exact ih

/-- Helper: `remove` leaves other names' values unchanged. -/
theorem findValues_remove_other (l : List (Str × List Str)) (k k' : Str)
    (hne : cmpKey k' k ≠ .eq)
    (hc : List.Chain' (fun a b : Str × List Str => cmpKey a.1 b.1 = .lt) l) :
    findValues (entriesRemove l k) k' = findValues l k' := by
  induction l with
  | nil => rfl
  | cons e rest ih =>
    unfold entriesRemove
    by_cases hcmp : cmpKey k e.1 = .eq
    · rw [if_pos hcmp]
      unfold findValues
      rw [if_neg (fun h' =>
        hne (cmpKey_eq_trans _ _ _ h' (cmpKey_eq_symm _ _ hcmp)))]
      cases rest <;> rfl
    · rw [if_neg hcmp]
      unfold findValues
      by_cases h' : cmpKey k' e.1 = .eq
      · rw [if_pos h', if_pos h']
      · rw [if_neg h', if_neg h']
        exact ih (List.Chain'.tail hc)

/-- Helper: one name's values are at most the total value count. -/
theorem findValues_length_le_tv (l : List (Str × List Str)) (k : Str) :
    (findValues l k).length ≤ (l.map (fun e => e.2.length)).sum := by
  induction l with
  | nil => simp [findValues]
  | cons e rest ih =>
    unfold findValues
    by_cases h : cmpKey k e.1 = .eq
    · rw [if_pos h]
      simp
    · rw [if_neg h]
      simp only [List.map_cons, List.sum_cons]
      omega

/-- Helper: total value count after `insert`. -/
theorem tv_insert (l : List (Str × List Str)) (k : Str) (vs : List Str)
    (hc : List.Chain' (fun a b : Str × List Str => cmpKey a.1 b.1 = .lt) l) :
    ((entriesInsert l k vs).map (fun e => e.2.length)).sum =
      (l.map (fun e => e.2.length)).sum - (findValues l k).length + vs.length := by
  induction l with
  | nil => simp [entriesInsert, findValues]
  | cons e rest ih =>
    unfold entriesInsert
    cases hcmp : cmpKey k e.1 with
    | lt =>
      rw [findValues_nil_of_lt_all _ _ (lt_all_of_sorted e rest k hc hcmp)]
      simp only [List.map_cons, List.sum_cons, List.length_nil]
      omega
    | eq =>
      unfold findValues
      rw [if_pos hcmp]
      simp only [List.map_cons, List.sum_cons]
      omega
    | gt =>
      unfold findValues
      rw [if_neg (by rw [hcmp]; exact fun h => Ordering.noConfusion h)]
      simp only [List.map_cons, List.sum_cons,
        ih (List.Chain'.tail hc)]
      have := findValues_length_le_tv rest k
      omega

/-- Helper: total value count after `append`. -/
theorem tv_append (l : List (Str × List Str)) (k v : Str) :
    ((entriesAppend l k v).map (fun e => e.2.length)).sum =
      (l.map (fun e => e.2.length)).sum + 1 := by
  induction l with
  | nil => simp [entriesAppend]
  | cons e rest ih =>
    unfold entriesAppend
    cases hcmp : cmpKey k e.1 with
    | lt => simp only [List.map_cons, List.sum_cons, List.length_singleton]; omega
    | eq => simp only [List.map_cons, List.sum_cons, List.length_append,
        List.length_singleton]; omega
    | gt => simp only [List.map_cons, List.sum_cons, ih]; omega

/-- Helper: total value count after `remove`. -/
theorem tv_remove (l : List (Str × List Str)) (k : Str) :
    ((entriesRemove l k).map (fun e => e.2.length)).sum =
      (l.map (fun e => e.2.length)).sum - (findValues l k).length := by
  induction l with
  | nil => simp [entriesRemove, findValues]
  | cons e rest ih =>
    unfold entriesRemove findValues
    by_cases h : cmpKey k e.1 = .eq
    · rw [if_pos h, if_pos h]
      simp only [List.map_cons, List.sum_cons]
      omega
    · rw [if_neg h, if_neg h]
      simp only [List.map_cons, List.sum_cons, ih]
      have := findValues_length_le_tv rest k
      omega

/-- Helper: `insert` keeps the entry list sorted. -/
theorem chain'_entriesInsert (l : List (Str × List Str)) (k : Str)
    (vs : List Str)
    (hc : List.Chain' (fun a b : Str × List Str => cmpKey a.1 b.1 = .lt) l) :
    List.Chain' (fun a b : Str × List Str => cmpKey a.1 b.1 = .lt)
      (entriesInsert l k vs) := by
  induction l with
  | nil => simp [entriesInsert]
  | cons e rest ih =>
    unfold entriesInsert
    cases hcmp : cmpKey k e.1 with
    | lt => exact List.chain'_cons.mpr ⟨hcmp, hc⟩
    | eq =>
      rcases List.chain'_cons'.mp hc with ⟨hhd, hrest⟩
      exact List.chain'_cons'.mpr ⟨hhd, hrest⟩
    | gt =>
      rcases List.chain'_cons'.mp hc with ⟨hhd, hrest⟩
      refine List.chain'_cons'.mpr ⟨?_, ih hrest⟩
      intro h hh
      cases rest with
      | nil =>
        simp [entriesInsert] at hh
        rw [← hh]
        exact (cmpKey_gt_iff k e.1).mp hcmp
      | cons f rest' =>
        unfold entriesInsert at hh
        cases hcmp2 : cmpKey k f.1 with
        | lt =>
          rw [hcmp2] at hh
          simp at hh
          rw [← hh]
          exact (cmpKey_gt_iff k e.1).mp hcmp
        | eq =>
          rw [hcmp2] at hh
          simp at hh
          rw [← hh]
          exact hhd f (by simp)
        | gt =>
          rw [hcmp2] at hh
          simp at hh
          rw [← hh]
          exact hhd f (by simp)

/-- Helper: `append` keeps the entry list sorted. -/
theorem chain'_entriesAppend (l : List (Str × List Str)) (k v : Str)
    (hc : List.Chain' (fun a b : Str × List Str => cmpKey a.1 b.1 = .lt) l) :
    List.Chain' (fun a b : Str × List Str => cmpKey a.1 b.1 = .lt)
      (entriesAppend l k v) := by
  induction l with
  | nil => simp [entriesAppend]
  | cons e rest ih =>
    unfold entriesAppend
    cases hcmp : cmpKey k e.1 with
    | lt => exact List.chain'_cons.mpr ⟨hcmp, hc⟩
    | eq =>
      rcases List.chain'_cons'.mp hc with ⟨hhd, hrest⟩
      exact List.chain'_cons'.mpr ⟨hhd, hrest⟩
    | gt =>
      rcases List.chain'_cons'.mp hc with ⟨hhd, hrest⟩
      refine List.chain'_cons'.mpr ⟨?_, ih hrest⟩
      intro h hh
      cases rest with
      | nil =>
        simp [entriesAppend] at hh
        rw [← hh]
        exact (cmpKey_gt_iff k e.1).mp hcmp
      | cons f rest' =>
        unfold entriesAppend at hh
        cases hcmp2 : cmpKey k f.1 with
        | lt =>
          rw [hcmp2] at hh
          simp at hh
          rw [← hh]
          exact (cmpKey_gt_iff k e.1).mp hcmp
        | eq =>
          rw [hcmp2] at hh
          simp at hh
          rw [← hh]
          exact hhd f (by simp)
        | gt =>
          rw [hcmp2] at hh
          simp at hh
          rw [← hh]
          exact hhd f (by simp)

/-- Helper: `remove` yields a sublist of the entries. -/
theorem entriesRemove_sublist (l : List (Str × List Str)) (k : Str) :
    (entriesRemove l k).Sublist l := by
  induction l with
  | nil => simp [entriesRemove]
  | cons e rest ih =>
    unfold entriesRemove
    by_cases h : cmpKey k e.1 = .eq
    · rw [if_pos h]
      exact List.sublist_cons_self e rest
    · rw [if_neg h]
      exact List.Sublist.cons₂ e ih

/-- Helper: `remove` keeps the entry list sorted. -/
theorem chain'_entriesRemove (l : List (Str × List Str)) (k : Str)
    (hc : List.Chain' (fun a b : Str × List Str => cmpKey a.1 b.1 = .lt) l) :
    List.Chain' (fun a b : Str × List Str => cmpKey a.1 b.1 = .lt)
      (entriesRemove l k) := by
  haveI : IsTrans (Str × List Str)
      (fun a b : Str × List Str => cmpKey a.1 b.1 = .lt) :=
    ⟨fun _ _ _ h1 h2 => cmpKey_lt_trans _ _ _ h1 h2⟩
  exact List.chain'_iff_pairwise.mpr
    ((List.chain'_iff_pairwise.mp hc).sublist (entriesRemove_sublist l k))

/-- Helper: `insert` keeps all value lists non-empty. -/
theorem valsNe_entriesInsert (l : List (Str × List Str)) (k : Str)
    (vs : List Str) (hvs : vs ≠ []) (hl : ∀ e ∈ l, e.2 ≠ []) :
    ∀ e ∈ entriesInsert l k vs, e.2 ≠ [] := by
  induction l with
  | nil =>
    intro e he
    simp [entriesInsert] at he
    rw [he]
    exact hvs
  | cons f rest ih =>
    intro e he
    unfold entriesInsert at he
    cases hcmp : cmpKey k f.1 with
    | lt =>
      rw [hcmp] at he
      rcases List.mem_cons.mp he with rfl | he
      · exact hvs
      · exact hl e he
    | eq =>
      rw [hcmp] at he
      rcases List.mem_cons.mp he with rfl | he
      · exact hvs
      · exact hl e (List.mem_cons_of_mem f he)
    | gt =>
      rw [hcmp] at he
      rcases List.mem_cons.mp he with rfl | he
      · exact hl f (List.mem_cons_self f rest)
      · exact ih (fun x hx => hl x (List.mem_cons_of_mem f hx)) e he

/-- Helper: `append` keeps all value lists non-empty. -/
theorem valsNe_entriesAppend (l : List (Str × List Str)) (k v : Str)
    (hl : ∀ e ∈ l, e.2 ≠ []) :
    ∀ e ∈ entriesAppend l k v, e.2 ≠ [] := by
  induction l with
  | nil =>
    intro e he
    simp [entriesAppend] at he
    rw [he]
    exact fun h => List.noConfusion h
  | cons f rest ih =>
    intro e he
    unfold entriesAppend at he
    cases hcmp : cmpKey k f.1 with
    | lt =>
      rw [hcmp] at he
      rcases List.mem_cons.mp he with rfl | he
      · exact fun h => List.noConfusion h
      · exact hl e he
    | eq =>
      rw [hcmp] at he
      rcases List.mem_cons.mp he with rfl | he
      · simp
      · exact hl e (List.mem_cons_of_mem f he)
    | gt =>
      rw [hcmp] at he
      rcases List.mem_cons.mp he with rfl | he
      · exact hl f (List.mem_cons_self f rest)
      · exact ih (fun x hx => hl x (List.mem_cons_of_mem f hx)) e he

/-- Helper: sorted entries have pairwise distinct names. -/
theorem pairwise_ne_of_chain (l : List (Str × List Str))
    (hc : List.Chain' (fun a b : Str × List Str => cmpKey a.1 b.1 = .lt) l) :
    List.Pairwise (fun a b : Str × List Str => cmpKey a.1 b.1 ≠ .eq) l := by
  haveI : IsTrans (Str × List Str)
      (fun a b : Str × List Str => cmpKey a.1 b.1 = .lt) :=
    ⟨fun _ _ _ h1 h2 => cmpKey_lt_trans _ _ _ h1 h2⟩
  exact (List.chain'_iff_pairwise.mp hc).imp (fun h => cmpKey_lt_ne_eq _ _ h)

/-- Helper: the empty map is well-formed. -/
theorem mapWF_new : mapWF HeaderMap.new := by
  refine ⟨rfl, ?_, ?_, ?_⟩ <;> simp [HeaderMap.new, mapSorted, totalValues]

/-- Helper: `insert` preserves well-formedness. -/
theorem mapWF_insert (m : HeaderMap) (k v : Str) (h : mapWF m) :
    mapWF (m.insert k v) := by
  obtain ⟨hlen, hsort, hpw, hvals⟩ := h
  refine ⟨?_, ?_, ?_, ?_⟩
  · show m.len - (findValues m.entries k).length + 1 = _
    unfold totalValues HeaderMap.insert
    simp only
    rw [tv_insert m.entries k [v] hsort, hlen]
    rfl
  · exact chain'_entriesInsert m.entries k [v] hsort
  · exact pairwise_ne_of_chain _ (chain'_entriesInsert m.entries k [v] hsort)
  · exact valsNe_entriesInsert m.entries k [v] (fun h => List.noConfusion h) hvals

/-- Helper: `append` preserves well-formedness. -/
theorem mapWF_append (m : HeaderMap) (k v : Str) (h : mapWF m) :
    mapWF (m.append k v) := by
  obtain ⟨hlen, hsort, hpw, hvals⟩ := h
  refine ⟨?_, ?_, ?_, ?_⟩
  · show m.len + 1 = _
    unfold totalValues HeaderMap.append
    simp only
    rw [tv_append m.entries k v, hlen]
    rfl
  · exact chain'_entriesAppend m.entries k v hsort
  · exact pairwise_ne_of_chain _ (chain'_entriesAppend m.entries k v hsort)
  · exact valsNe_entriesAppend m.entries k v hvals

/-- Helper: `remove` preserves well-formedness. -/
theorem mapWF_remove (m : HeaderMap) (k : Str) (h : mapWF m) :
    mapWF (m.remove k) := by
  obtain ⟨hlen, hsort, hpw, hvals⟩ := h
  refine ⟨?_, ?_, ?_, ?_⟩
  · show m.len - (findValues m.entries k).length = _
    unfold totalValues HeaderMap.remove
    simp only
    rw [tv_remove m.entries k, hlen]
    rfl
  · exact chain'_entriesRemove m.entries k hsort
  · exact pairwise_ne_of_chain _ (chain'_entriesRemove m.entries k hsort)
  · intro e he
    exact hvals e ((entriesRemove_sublist m.entries k).subset he)

/-- Helper: every map operation preserves well-formedness. -/
theorem mapWF_apply (m : HeaderMap) (op : HOp) (h : mapWF m) :
    mapWF (applyHOp m op) := by
  cases op with
  | insert k v => exact mapWF_insert m k v h
  | append k v => exact mapWF_append m k v h
  | remove k => exact mapWF_remove m k h
  | clear => exact mapWF_new

/-- C9: after any sequence of map operations from `new` (with `extend` and
`collect` being folds of `append`), the map is well-formed: `len` equals the
total number of stored values, `keys_len` counts the pairwise-distinct
names, and iteration is sorted by name; moreover `append` adds its value at
the end of that name's list (preserving insertion order), `insert` resets
the list to the single new value, `remove` clears it, and all three leave
every other name's values untouched. -/
theorem c9_header_map_invariants :
    (∀ ops : List HOp, mapWF (runHOps ops)) ∧
    (∀ (m : HeaderMap) (k v : Str), mapWF m →
      findValues (m.append k v).entries k = findValues m.entries k ++ [v]) ∧
    (∀ (m : HeaderMap) (k v : Str),
      findValues (m.insert k v).entries k = [v]) ∧
    (∀ (m : HeaderMap) (k : Str), mapWF m →
      findValues (m.remove k).entries k = []) ∧
    (∀ (m : HeaderMap) (k k' v : Str), mapWF m → cmpKey k' k ≠ .eq →
      findValues (m.insert k v).entries k' = findValues m.entries k' ∧
      findValues (m.append k v).entries k' = findValues m.entries k' ∧
      findValues (m.remove k).entries k' = findValues m.entries k') := by
  refine ⟨?_, ?_, ?_, ?_, ?_⟩
  · intro ops
    suffices h : ∀ m, mapWF m → mapWF (ops.foldl applyHOp m) from
      h HeaderMap.new mapWF_new
    induction ops with
    | nil => intro m hm; exact hm
    | cons op rest ih => intro m hm; exact ih _ (mapWF_apply m op hm)
  · intro m k v hwf
    exact findValues_append_self m.entries k v hwf.2.1
  · intro m k v
    exact findValues_insert_self m.entries k [v]
  · intro m k hwf
    exact findValues_remove_self m.entries k hwf.2.1
  · intro m k k' v hwf hne
    exact ⟨findValues_insert_other m.entries k k' [v] hne,
      findValues_append_other m.entries k k' v hne,
      findValues_remove_other m.entries k k' hne hwf.2.1⟩

/-- C9 witness: the invariants and step equations applied to concrete maps
built by `append` operations. -/
theorem c9_header_map_invariants_witness :
    mapWF (runHOps [.append ['a'] ['x'], .append ['b'] ['y'],
      .append ['a'] ['z']]) ∧
    findValues ((runHOps [.append ['a'] ['x']]).append ['a'] ['z']).entries
        ['a'] =
      findValues (runHOps [.append ['a'] ['x']]).entries ['a'] ++ [['z']] ∧
    findValues ((runHOps [.append ['a'] ['x']]).insert ['a'] ['z']).entries
        ['a'] = [['z']] ∧
    findValues ((runHOps [.append ['a'] ['x']]).remove ['a']).entries
        ['a'] = [] ∧
    findValues ((runHOps [.append ['a'] ['x']]).append ['a'] ['z']).entries
        ['b'] = findValues (runHOps [.append ['a'] ['x']]).entries ['b'] :=
  ⟨c9_header_map_invariants.1 _,
    c9_header_map_invariants.2.1 _ ['a'] ['z']
      (c9_header_map_invariants.1 [.append ['a'] ['x']]),
    c9_header_map_invariants.2.2.1 _ ['a'] ['z'],
    c9_header_map_invariants.2.2.2.1 _ ['a']
      (c9_header_map_invariants.1 [.append ['a'] ['x']]),
    (c9_header_map_invariants.2.2.2.2 _ ['a'] ['b'] ['z']
      (c9_header_map_invariants.1 [.append ['a'] ['x']]) (by decide)).2.1⟩

end Watermelon
